import Mathlib

/-!
Shallow embedding of the `node_graph` Rust library (graph store, dependency
analyzer, evaluation walker, reference resolution) and verification of its
specification claims.

The Rust `SlotMap`/`SecondaryMap` arenas are modelled as association lists
`List (Nat × α)` in key order, with fresh keys drawn from a per-arena counter
stored in the graph; `get`/`get_mut`/`remove` become `smGet`/`smSet`/`smRemove`.
Panics (`expect`/`panic!`) are modelled by `Option`/result types that record the
state at the point of failure where a claim needs it.  Caller-supplied node
lifecycle hooks are modelled by an event log.
-/

namespace NodeGraph

abbrev NodeId := Nat
abbrev ConnectionId := Nat
abbrev InputPortId := Nat
abbrev OutputPortId := Nat

/-- Arena lookup (`SlotMap::get` / `SecondaryMap::get`). -/
def smGet {α : Type} : List (Nat × α) → Nat → Option α
  | [], _ => none
  | (k, v) :: rest, k' => if k = k' then some v else smGet rest k'

/-- In-place update of the value at a key (`get_mut` followed by a write). -/
def smSet {α : Type} : List (Nat × α) → Nat → α → List (Nat × α)
  | [], _, _ => []
  | (k, v) :: rest, k', v' =>
      if k = k' then (k, v') :: rest else (k, v) :: smSet rest k' v'

/-- Arena removal (`SlotMap::remove`), dropping the entry with the key. -/
def smRemove {α : Type} (m : List (Nat × α)) (k : Nat) : List (Nat × α) :=
  m.filter (fun e => e.1 ≠ k)

/-- `SecondaryMap::insert`: update the key in place when present, add it
otherwise. -/
def smUpsert {α : Type} (m : List (Nat × α)) (k : Nat) (v : α) : List (Nat × α) :=
  if (smGet m k).isSome then smSet m k v else m ++ [(k, v)]

def smKeys {α : Type} (m : List (Nat × α)) : List Nat := m.map Prod.fst

/-- `Port<N>`: owning node, display name, type tag, optional default (input
ports only), and the attached connection ids (incoming for input ports,
outgoing for output ports). -/
structure Port (T V : Type) where
  node : NodeId
  name : String
  ty : T
  default : Option V
  incoming_connections : List ConnectionId
  outgoing_connections : List ConnectionId
  deriving Repr, DecidableEq

def Port.new {T V : Type} (node : NodeId) (name : String) (ty : T)
    (default : Option V) : Port T V :=
  ⟨node, name, ty, default, [], []⟩

/-- `Connection`: ordered pair (start output port, end input port). -/
structure Connection where
  start_port : OutputPortId
  end_port : InputPortId
  deriving Repr, DecidableEq

/-- `NodeData`: the node's ordered `(name, id)` port lists. -/
structure NodeData where
  inputs : List (String × InputPortId)
  outputs : List (String × OutputPortId)
  deriving Repr, DecidableEq

/-- `Graph<N>`: arenas for node data, node states (only their ids matter to
the structural claims; hook bodies are no-ops logged as events), connections
and ports, plus the fresh-key counters of the three slot maps mutated by the
modelled operations. -/
structure Graph (T V : Type) where
  node_data : List (NodeId × NodeData)
  nodes : List NodeId
  connections : List (ConnectionId × Connection)
  input_ports : List (InputPortId × Port T V)
  output_ports : List (OutputPortId × Port T V)
  next_connection : ConnectionId
  next_input : InputPortId
  next_output : OutputPortId
  deriving Repr

/-- Lifecycle hook invocations (`Node` trait callbacks), recorded as events. -/
inductive HookEvent where
  | inputPortCreated (node : NodeId) (name : String) (id : InputPortId)
  | outputPortCreated (node : NodeId) (name : String) (id : OutputPortId)
  | inputConnectionAdded (node : NodeId) (port : InputPortId) (conn : ConnectionId)
  | outputConnectionAdded (node : NodeId) (port : OutputPortId) (conn : ConnectionId)
  | inputConnectionRemoved (node : NodeId) (port : InputPortId) (conn : ConnectionId)
  | outputConnectionRemoved (node : NodeId) (port : OutputPortId) (conn : ConnectionId)
  deriving Repr, DecidableEq

/-- Input-port references (`InputPortId` direct handles plus the
`NodeInputIndexReference` / `NodeInputNameReference` variants; the dynamic
reference is the tagged choice of the latter two and resolves identically). -/
inductive InputRef where
  | id (p : InputPortId)
  | index (n : NodeId) (i : Nat)
  | name (n : NodeId) (s : String)
  deriving Repr, DecidableEq

/-- Output-port references, mirroring the input ones. -/
inductive OutputRef where
  | id (p : OutputPortId)
  | index (n : NodeId) (i : Nat)
  | name (n : NodeId) (s : String)
  deriving Repr, DecidableEq

/-- `Graph::get_input_port`: linear name lookup in the node's input list. -/
def get_input_port {T V : Type} (g : Graph T V) (node : NodeId) (name : String) :
    Option InputPortId :=
  (smGet g.node_data node).bind fun nd =>
    (nd.inputs.find? (fun e => e.1 = name)).map Prod.snd

/-- `Graph::get_output_port`. -/
def get_output_port {T V : Type} (g : Graph T V) (node : NodeId) (name : String) :
    Option OutputPortId :=
  (smGet g.node_data node).bind fun nd =>
    (nd.outputs.find? (fun e => e.1 = name)).map Prod.snd

/-- `Graph::get_input_port_at`: ordinal lookup in the node's input list. -/
def get_input_port_at {T V : Type} (g : Graph T V) (node : NodeId) (i : Nat) :
    Option InputPortId :=
  (smGet g.node_data node).bind fun nd => (nd.inputs.get? i).map Prod.snd

/-- `Graph::get_output_port_at`. -/
def get_output_port_at {T V : Type} (g : Graph T V) (node : NodeId) (i : Nat) :
    Option OutputPortId :=
  (smGet g.node_data node).bind fun nd => (nd.outputs.get? i).map Prod.snd

/-- `InputPortReference::resolve` for each reference kind (reference.rs):
direct handles resolve to themselves, ordinal and name references go through
`get_input_port_at` / `get_input_port`. -/
def resolveInput {T V : Type} (g : Graph T V) : InputRef → Option InputPortId
  | .id p => some p
  | .index n i => get_input_port_at g n i
  | .name n s => get_input_port g n s

/-- `OutputPortReference::resolve` for each reference kind. -/
def resolveOutput {T V : Type} (g : Graph T V) : OutputRef → Option OutputPortId
  | .id p => some p
  | .index n i => get_output_port_at g n i
  | .name n s => get_output_port g n s

/-- `Graph::get_input_port_info`: resolve, then arena lookup. -/
def get_input_port_info {T V : Type} (g : Graph T V) (r : InputRef) :
    Option (Port T V) :=
  (resolveInput g r).bind (smGet g.input_ports)

/-- `Graph::get_output_port_info`. -/
def get_output_port_info {T V : Type} (g : Graph T V) (r : OutputRef) :
    Option (Port T V) :=
  (resolveOutput g r).bind (smGet g.output_ports)

/-- `Graph::get_incoming_connections`: resolve the input reference and map
each incoming connection id to the producing output port.  The `expect`
panics of the Rust code (unresolvable reference, missing port, missing
connection) are modelled by `none`. -/
def get_incoming_connections {T V : Type} (g : Graph T V) (r : InputRef) :
    Option (List OutputPortId) :=
  (resolveInput g r).bind fun pid =>
  (smGet g.input_ports pid).bind fun p =>
  p.incoming_connections.mapM fun cid =>
    (smGet g.connections cid).map Connection.start_port

/-- `NodeInputIdentifier` (`usize` or `&str`), as accepted by the walk
context; `combine` pairs it with the context's current node. -/
inductive InputIdent where
  | index (i : Nat)
  | name (s : String)
  deriving Repr, DecidableEq

/-- `NodeOutputIdentifier`. -/
inductive OutputIdent where
  | index (i : Nat)
  | name (s : String)
  deriving Repr, DecidableEq

def InputIdent.combine : InputIdent → NodeId → InputRef
  | .index i, n => .index n i
  | .name s, n => .name n s

def OutputIdent.combine : OutputIdent → NodeId → OutputRef
  | .index i, n => .index n i
  | .name s, n => .name n s

/-- The walker's output cache (`SecondaryMap<OutputPortId, DataValue>`). -/
abbrev OutputCache (V : Type) := List (OutputPortId × V)

/-- `GraphWalkContext::get`: first cached value among the producing output
ports of the input's incoming connections, in connection-list order; falls
back to the input port's default; panics (`.error`) when neither exists. -/
def context_get {T V : Type} (g : Graph T V) (cache : OutputCache V)
    (node : NodeId) (ident : InputIdent) : Except String V :=
  match get_incoming_connections g (ident.combine node) with
  | none => .error "Port does not exist"
  | some starts =>
    match (starts.filterMap (smGet cache)).head? with
    | some v => .ok v
    | none =>
      match get_input_port_info g (ident.combine node) with
      | none => .error "Graph is in invalid state, this is a bug"
      | some p =>
        match p.default with
        | some d => .ok d
        | none => .error "No default value present for disconnected port"

/-- `GraphWalkContext::get_all`: every cached value of every incoming
connection, in connection-list order, skipping uncached producers. -/
def context_get_all {T V : Type} (g : Graph T V) (cache : OutputCache V)
    (node : NodeId) (ident : InputIdent) : Option (List V) :=
  (get_incoming_connections g (ident.combine node)).map fun starts =>
    starts.filterMap (smGet cache)

/-- `Itertools::unique`: deduplicate keeping the first occurrence, with an
accumulator of already-seen elements (the `HashSet` of `itertools`). -/
def uniqueFirstAux (seen : List Nat) : List Nat → List Nat
  | [] => []
  | a :: rest =>
    if a ∈ seen then uniqueFirstAux seen rest
    else a :: uniqueFirstAux (a :: seen) rest

def uniqueFirst (l : List Nat) : List Nat := uniqueFirstAux [] l

/-- `Graph::get_direct_dependencies`: owners of the output side of every
connection feeding any of the node's input ports, deduplicated keeping first
occurrences; `expect` panics modelled by `none`. -/
def get_direct_dependencies {T V : Type} (g : Graph T V) (n : NodeId) :
    Option (List NodeId) :=
  (smGet g.node_data n).bind fun nd =>
  (nd.inputs.mapM fun e =>
    (smGet g.input_ports e.2).bind fun p =>
    p.incoming_connections.mapM fun cid =>
      (smGet g.connections cid).bind fun c =>
      (smGet g.output_ports c.start_port).map Port.node).map fun ll =>
  uniqueFirst ll.flatten

/-- `CatagorizedNodes`. -/
structure CatagorizedNodes where
  loose : List NodeId
  entry : List NodeId
  exit : List NodeId
  net : List NodeId
  deriving Repr, DecidableEq

/-- The short-circuiting `any` over a node's port list used by
`catagorize_nodes` (`get_*_port_info(..).expect(INVALID_STATE)` inside, so a
missing port is a panic, modelled by `none` — but only when reached). -/
def any_port_connected {T V : Type} (arena : List (Nat × Port T V))
    (connsOf : Port T V → List ConnectionId) : List (String × Nat) → Option Bool
  | [] => some false
  | e :: rest =>
    (smGet arena e.2).bind fun p =>
    if 0 < (connsOf p).length then some true
    else any_port_connected arena connsOf rest

/-- The iteration of `catagorize_nodes` over `self.graph.node_data.iter()`,
pushing each node id onto the list selected by the
`(has_incoming_connections, has_outgoing_connections)` match. -/
def catagorize_loop {T V : Type} (g : Graph T V) :
    List (NodeId × NodeData) → CatagorizedNodes → Option CatagorizedNodes
  | [], acc => some acc
  | e :: rest, acc =>
    (any_port_connected g.input_ports Port.incoming_connections e.2.inputs).bind
    fun has_in =>
    (any_port_connected g.output_ports Port.outgoing_connections e.2.outputs).bind
    fun has_out =>
    catagorize_loop g rest
      (match has_in, has_out with
        | false, false => { acc with loose := acc.loose ++ [e.1] }
        | false, true => { acc with entry := acc.entry ++ [e.1] }
        | true, false => { acc with exit := acc.exit ++ [e.1] }
        | true, true => { acc with net := acc.net ++ [e.1] })

/-- `GraphAnalyzer::catagorize_nodes`: partition the node ids by whether any
input port has an incoming connection and any output port has an outgoing
connection. -/
def catagorize_nodes {T V : Type} (g : Graph T V) : Option CatagorizedNodes :=
  catagorize_loop g g.node_data ⟨[], [], [], []⟩

/-- One exit-root traversal of `generate_execution_path`: explicit-stack DFS,
`priority[top] = max(previous, counter)` on each pop, dependencies pushed,
counter incremented.  The Rust `Vec` stack pops from the back, so the list
head models the `Vec` back and `extend` prepends the reversed dependency
list.  `fuel` bounds the loop; `none` means the fuel ran out or a lookup
inside `get_direct_dependencies` panicked. -/
def generate_path_loop {T V : Type} (g : Graph T V) :
    Nat → List NodeId → Nat → List (NodeId × Nat) → Option (List (NodeId × Nat))
  | 0, _, _, _ => none
  | _ + 1, [], _, buffer => some buffer
  | fuel + 1, top :: stack, priority, buffer =>
    (get_direct_dependencies g top).bind fun deps =>
    generate_path_loop g fuel (deps.reverse ++ stack) (priority + 1)
      (smUpsert buffer top (max ((smGet buffer top).getD 0) priority))

/-- Insertion step of the priority sort (`sort_by_key` on the priority). -/
def prioInsert (x : NodeId × Nat) : List (NodeId × Nat) → List (NodeId × Nat)
  | [] => [x]
  | y :: rest => if x.2 ≤ y.2 then x :: y :: rest else y :: prioInsert x rest

/-- Sort the `(node, priority)` pairs by priority ascending. -/
def prioSort : List (NodeId × Nat) → List (NodeId × Nat)
  | [] => []
  | x :: rest => prioInsert x (prioSort rest)

/-- `GraphAnalyzer::generate_execution_path`: run one DFS per exit node over
a shared priority buffer, then sort by priority ascending, reverse, and keep
the node ids. -/
def generate_execution_path {T V : Type} (g : Graph T V) (exit_nodes : List NodeId)
    (fuel : Nat) : Option (List NodeId) :=
  (exit_nodes.foldlM (fun buffer e => generate_path_loop g fuel [e] 0 buffer)
    []).map fun buffer =>
  ((prioSort buffer).reverse).map Prod.fst

/-- `Graph::can_connect`: resolve both references (panic — `none` — when
either fails to resolve or the port is gone), then test that the owning nodes
differ and the output type converts to the input type. -/
def can_connect {T V : Type} (g : Graph T V) (canConvert : T → T → Bool)
    (sref : OutputRef) (eref : InputRef) : Option Bool :=
  (resolveOutput g sref).bind fun sp =>
  (resolveInput g eref).bind fun ep =>
  (smGet g.output_ports sp).bind fun s =>
  (smGet g.input_ports ep).map fun e =>
  decide (s.node ≠ e.node) && canConvert s.ty e.ty

/-- Result of `Graph::connect`; `fatal` carries the graph state and the hook
events already applied at the point of the panic. -/
inductive ConnectResult (T V : Type) where
  | ok (g : Graph T V) (events : List HookEvent) (id : ConnectionId)
  | fatal (g : Graph T V) (events : List HookEvent) (msg : String)
  deriving Repr

/-- `Graph::connect`: resolve both references, insert the connection, append
its id to the output port's outgoing list and fire the output node's hook,
*then* check same-node and type convertibility (panicking after the output
side was already mutated), and only then link and notify the input side. -/
def connect {T V : Type} (g : Graph T V) (canConvert : T → T → Bool)
    (sref : OutputRef) (eref : InputRef) : ConnectResult T V :=
  match resolveOutput g sref with
  | none => .fatal g [] "Start port does not exist"
  | some sp =>
  match resolveInput g eref with
  | none => .fatal g [] "End port does not exist"
  | some ep =>
  let id := g.next_connection
  let g1 : Graph T V :=
    { g with
      connections := g.connections ++ [(id, ⟨sp, ep⟩)]
      next_connection := id + 1 }
  match smGet g1.output_ports sp with
  | none => .fatal g1 [] "Start port of connection does not exist"
  | some s =>
  let g2 : Graph T V :=
    { g1 with
      output_ports := smSet g1.output_ports sp
        { s with outgoing_connections := s.outgoing_connections ++ [id] } }
  if s.node ∈ g2.nodes then
    let ev1 := [HookEvent.outputConnectionAdded s.node sp id]
    match smGet g2.input_ports ep with
    | none => .fatal g2 ev1 "End port of connection does not exist"
    | some e =>
    if s.node = e.node then
      .fatal g2 ev1 "Attempted to create a connection to the same node"
    else if canConvert s.ty e.ty then
      let g3 : Graph T V :=
        { g2 with
          input_ports := smSet g2.input_ports ep
            { e with incoming_connections := e.incoming_connections ++ [id] } }
      if e.node ∈ g3.nodes then
        .ok g3 (ev1 ++ [HookEvent.inputConnectionAdded e.node ep id]) id
      else .fatal g3 ev1 "Graph is in invalid state, this is a bug"
    else
      .fatal g2 ev1
        "Attempted to create a connection between two ports of non-convertable types"
  else .fatal g2 [] "Graph is in invalid state, this is a bug"

/-- Result of `create_input_port` / `create_output_port`; `fatal` carries the
state at the panic. -/
inductive CreatePortResult (T V : Type) where
  | ok (g : Graph T V) (id : Nat) (events : List HookEvent)
  | fatal (g : Graph T V) (msg : String)
  deriving Repr

/-- `Graph::create_input_port`: panic when the node does not exist or a
same-named input port exists; otherwise append the port (fresh id) to the
arena and to the node's ordered input list and fire the creation hook. -/
def create_input_port {T V : Type} (g : Graph T V) (node : NodeId)
    (name : String) (ty : T) (default : V) : CreatePortResult T V :=
  match smGet g.node_data node with
  | none => .fatal g "Node does not exist"
  | some nd =>
    if nd.inputs.any (fun e => e.1 = name) then
      .fatal g "An input port with this name already exists"
    else
      let id := g.next_input
      let g1 : Graph T V :=
        { g with
          input_ports := g.input_ports ++ [(id, Port.new node name ty (some default))]
          next_input := id + 1
          node_data := smSet g.node_data node
            { nd with inputs := nd.inputs ++ [(name, id)] } }
      if node ∈ g1.nodes then .ok g1 id [HookEvent.inputPortCreated node name id]
      else .fatal g1 "Node does not exist"

/-- `Graph::create_output_port`. -/
def create_output_port {T V : Type} (g : Graph T V) (node : NodeId)
    (name : String) (ty : T) : CreatePortResult T V :=
  match smGet g.node_data node with
  | none => .fatal g "Node does not exist"
  | some nd =>
    if nd.outputs.any (fun e => e.1 = name) then
      .fatal g "An output port with this name already exists"
    else
      let id := g.next_output
      let g1 : Graph T V :=
        { g with
          output_ports := g.output_ports ++ [(id, Port.new node name ty none)]
          next_output := id + 1
          node_data := smSet g.node_data node
            { nd with outputs := nd.outputs ++ [(name, id)] } }
      if node ∈ g1.nodes then .ok g1 id [HookEvent.outputPortCreated node name id]
      else .fatal g1 "Node does not exist"

/-- `Vec::remove(position(..))`: drop the first occurrence. -/
def removeFirst : List Nat → Nat → List Nat
  | [], _ => []
  | a :: rest, c => if a = c then rest else a :: removeFirst rest c

/-- Result of `delete_input_port` / `delete_output_port`: `notFound` models
the `Option` short-circuits, `fatal` the `expect(INVALID_STATE)` panics
inside the disconnect loop. -/
inductive DeleteResult (T V : Type) where
  | notFound
  | fatal (msg : String)
  | ok (g : Graph T V) (events : List HookEvent)
  deriving Repr

/-- The disconnect loop of `delete_input_port`: for each drained incoming
connection id, remove the connection (silently skipping ids already gone),
drop the id from the counterpart output port's outgoing list and fire the
counterpart node's removal hook. -/
def delete_input_loop {T V : Type} :
    List ConnectionId → Graph T V → List HookEvent → DeleteResult T V
  | [], g, evs => .ok g evs
  | cid :: rest, g, evs =>
    match smGet g.connections cid with
    | none => delete_input_loop rest g evs
    | some c =>
      let g1 : Graph T V := { g with connections := smRemove g.connections cid }
      match smGet g1.output_ports c.start_port with
      | none => .fatal "Graph is in invalid state, this is a bug"
      | some sp =>
        if cid ∈ sp.outgoing_connections then
          let g2 : Graph T V :=
            { g1 with
              output_ports := smSet g1.output_ports c.start_port
                { sp with
                  outgoing_connections := removeFirst sp.outgoing_connections cid } }
          if sp.node ∈ g2.nodes then
            delete_input_loop rest g2
              (evs ++ [HookEvent.outputConnectionRemoved sp.node c.start_port cid])
          else .fatal "Graph is in invalid state, this is a bug"
        else .fatal "Graph is in invalid state, this is a bug"

/-- `Graph::delete_input_port`: resolve and remove the port (both `?`
short-circuits return `notFound`), then run the disconnect loop over its
incoming connections. -/
def delete_input_port {T V : Type} (g : Graph T V) (r : InputRef) :
    DeleteResult T V :=
  match resolveInput g r with
  | none => .notFound
  | some pid =>
    match smGet g.input_ports pid with
    | none => .notFound
    | some p =>
      delete_input_loop p.incoming_connections
        { g with input_ports := smRemove g.input_ports pid } []

/-- The disconnect loop of `delete_output_port`, mirror image of
`delete_input_loop`. -/
def delete_output_loop {T V : Type} :
    List ConnectionId → Graph T V → List HookEvent → DeleteResult T V
  | [], g, evs => .ok g evs
  | cid :: rest, g, evs =>
    match smGet g.connections cid with
    | none => delete_output_loop rest g evs
    | some c =>
      let g1 : Graph T V := { g with connections := smRemove g.connections cid }
      match smGet g1.input_ports c.end_port with
      | none => .fatal "Graph is in invalid state, this is a bug"
      | some ep =>
        if cid ∈ ep.incoming_connections then
          let g2 : Graph T V :=
            { g1 with
              input_ports := smSet g1.input_ports c.end_port
                { ep with
                  incoming_connections := removeFirst ep.incoming_connections cid } }
          if ep.node ∈ g2.nodes then
            delete_output_loop rest g2
              (evs ++ [HookEvent.inputConnectionRemoved ep.node c.end_port cid])
          else .fatal "Graph is in invalid state, this is a bug"
        else .fatal "Graph is in invalid state, this is a bug"

/-- `Graph::delete_output_port`. -/
def delete_output_port {T V : Type} (g : Graph T V) (r : OutputRef) :
    DeleteResult T V :=
  match resolveOutput g r with
  | none => .notFound
  | some pid =>
    match smGet g.output_ports pid with
    | none => .notFound
    | some p =>
      delete_output_loop p.outgoing_connections
        { g with output_ports := smRemove g.output_ports pid } []

/-- `o` is `some a` for an `a` satisfying `P`. -/
def OptHolds {α : Type} (o : Option α) (P : α → Prop) : Prop :=
  match o with
  | none => False
  | some a => P a

instance {α : Type} (o : Option α) (P : α → Prop) [DecidablePred P] :
    Decidable (OptHolds o P) := by
  cases o with
  | none => exact isFalse (fun h => h)
  | some a => exact inferInstanceAs (Decidable (P a))

theorem optHolds_iff {α : Type} {o : Option α} {P : α → Prop} :
    OptHolds o P ↔ ∃ a, o = some a ∧ P a := by
  cases o with
  | none => simp [OptHolds]
  | some a => simp [OptHolds]

/-- Structural invariants maintained by the graph store on the states the
claims are about (bidirectional bookkeeping of connections, port ownership
registered in the owning node's lists, freshness of the arena counters,
distinct keys).  All fields are decidable so that concrete witness graphs can
discharge them by `decide`. -/
structure WF {T V : Type} (g : Graph T V) : Prop where
  conn_start : ∀ e ∈ g.connections,
    OptHolds (smGet g.output_ports e.2.start_port) fun sp =>
      e.1 ∈ sp.outgoing_connections ∧ sp.node ∈ g.nodes
  conn_end : ∀ e ∈ g.connections,
    OptHolds (smGet g.input_ports e.2.end_port) fun ep =>
      e.1 ∈ ep.incoming_connections ∧ ep.node ∈ g.nodes
  input_ports_ok : ∀ e ∈ g.input_ports,
    (∀ cid ∈ e.2.incoming_connections,
      OptHolds (smGet g.connections cid) fun c => c.end_port = e.1) ∧
    e.2.incoming_connections.Nodup ∧
    OptHolds (smGet g.node_data e.2.node) (fun nd => (e.2.name, e.1) ∈ nd.inputs) ∧
    e.2.node ∈ g.nodes
  output_ports_ok : ∀ e ∈ g.output_ports,
    (∀ cid ∈ e.2.outgoing_connections,
      OptHolds (smGet g.connections cid) fun c => c.start_port = e.1) ∧
    e.2.outgoing_connections.Nodup ∧
    OptHolds (smGet g.node_data e.2.node) (fun nd => (e.2.name, e.1) ∈ nd.outputs) ∧
    e.2.node ∈ g.nodes
  node_data_ok : ∀ e ∈ g.node_data,
    e.1 ∈ g.nodes ∧
    (∀ pe ∈ e.2.inputs,
      OptHolds (smGet g.input_ports pe.2) fun p => p.node = e.1) ∧
    (∀ pe ∈ e.2.outputs,
      OptHolds (smGet g.output_ports pe.2) fun p => p.node = e.1)
  conn_fresh : ∀ e ∈ g.connections, e.1 < g.next_connection
  input_fresh : ∀ e ∈ g.input_ports, e.1 < g.next_input
  output_fresh : ∀ e ∈ g.output_ports, e.1 < g.next_output
  conn_keys_nodup : (smKeys g.connections).Nodup
  input_keys_nodup : (smKeys g.input_ports).Nodup
  output_keys_nodup : (smKeys g.output_ports).Nodup
  node_keys_nodup : (smKeys g.node_data).Nodup

/-! ### Association-list lemmas -/

theorem smGet_mem {α : Type} {m : List (Nat × α)} {k : Nat} {v : α}
    (h : smGet m k = some v) : (k, v) ∈ m := by
  induction m with
  | nil => simp [smGet] at h
  | cons e rest ih =>
    obtain ⟨k', v'⟩ := e
    by_cases hk : k' = k
    · subst hk
      simp [smGet] at h
      subst h
      exact List.mem_cons_self _ _
    · simp [smGet, hk] at h
      exact List.mem_cons_of_mem _ (ih h)

theorem smGet_isSome_iff {α : Type} {m : List (Nat × α)} {k : Nat} :
    (smGet m k).isSome = true ↔ k ∈ smKeys m := by
  induction m with
  | nil => simp [smGet, smKeys]
  | cons e rest ih =>
    obtain ⟨k', v'⟩ := e
    by_cases hk : k' = k
    · subst hk
      simp [smGet, smKeys]
    · simp [smGet, smKeys, hk, ih, Ne.symm hk]

theorem smGet_eq_of_mem_nodup {α : Type} {m : List (Nat × α)} {k : Nat} {v : α}
    (hm : (k, v) ∈ m) (hd : (smKeys m).Nodup) : smGet m k = some v := by
  induction m with
  | nil => simp at hm
  | cons e rest ih =>
    obtain ⟨k', v'⟩ := e
    simp only [smKeys, List.map_cons, List.nodup_cons] at hd
    rcases List.mem_cons.mp hm with h | h
    · obtain ⟨h1, h2⟩ := Prod.mk.injEq .. ▸ h
      cases h
      simp [smGet]
    · have hk : k' ≠ k := by
        intro he
        subst he
        exact hd.1 (List.mem_map.mpr ⟨(k', v), h, rfl⟩)
      simp [smGet, hk]
      exact ih h hd.2

theorem smGet_smSet_self {α : Type} {m : List (Nat × α)} {k : Nat} {v w : α}
    (h : smGet m k = some w) : smGet (smSet m k v) k = some v := by
  induction m with
  | nil => simp [smGet] at h
  | cons e rest ih =>
    obtain ⟨k', v'⟩ := e
    by_cases hk : k' = k
    · subst hk
      simp [smGet, smSet]
    · simp [smGet, hk] at h
      simp [smGet, smSet, hk]
      exact ih h

theorem smGet_smSet_other {α : Type} (m : List (Nat × α)) (k k' : Nat) (v : α)
    (h : k' ≠ k) : smGet (smSet m k v) k' = smGet m k' := by
  induction m with
  | nil => simp [smSet]
  | cons e rest ih =>
    obtain ⟨k'', v''⟩ := e
    by_cases hk : k'' = k
    · subst hk
      simp [smSet, smGet, Ne.symm h]
    · by_cases hk2 : k'' = k'
      · subst hk2
        simp [smSet, hk, smGet]
      · simp [smSet, hk, smGet, hk2, ih]

theorem smKeys_smSet {α : Type} (m : List (Nat × α)) (k : Nat) (v : α) :
    smKeys (smSet m k v) = smKeys m := by
  induction m with
  | nil => simp [smSet]
  | cons e rest ih =>
    obtain ⟨k', v'⟩ := e
    by_cases hk : k' = k
    · simp [smSet, hk, smKeys]
    · simp [smSet, hk, smKeys] at ih ⊢
      exact ih

theorem mem_smSet {α : Type} {m : List (Nat × α)} {k : Nat} {v : α} {e : Nat × α}
    (h : e ∈ smSet m k v) : e ∈ m ∨ e = (k, v) := by
  induction m with
  | nil => simp [smSet] at h
  | cons e' rest ih =>
    obtain ⟨k', v'⟩ := e'
    by_cases hk : k' = k
    · subst hk
      simp [smSet] at h
      rcases h with h | h
      · right; simp [h]
      · left; exact List.mem_cons_of_mem _ h
    · simp [smSet, hk] at h
      rcases h with h | h
      · left; simp [h]
      · rcases ih h with h2 | h2
        · left; exact List.mem_cons_of_mem _ h2
        · right; exact h2

theorem smGet_smRemove_self {α : Type} (m : List (Nat × α)) (k : Nat) :
    smGet (smRemove m k) k = none := by
  induction m with
  | nil => simp [smRemove, smGet]
  | cons e rest ih =>
    obtain ⟨k', v'⟩ := e
    by_cases hk : k' = k
    · subst hk
      simpa [smRemove] using ih
    · simpa [smRemove, smGet, hk] using ih

theorem smGet_smRemove_other {α : Type} (m : List (Nat × α)) (k k' : Nat)
    (h : k' ≠ k) : smGet (smRemove m k) k' = smGet m k' := by
  induction m with
  | nil => simp [smRemove]
  | cons e rest ih =>
    obtain ⟨k'', v''⟩ := e
    by_cases hk : k'' = k
    · subst hk
      simp [smRemove, smGet, Ne.symm h]
      simpa [smRemove] using ih
    · by_cases hk2 : k'' = k'
      · subst hk2
        simp [smRemove, smGet, hk]
      · simp [smRemove, smGet, hk, hk2]
        simpa [smRemove] using ih

theorem smGet_append {α : Type} (m l : List (Nat × α)) (k : Nat) :
    smGet (m ++ l) k = match smGet m k with
      | some v => some v
      | none => smGet l k := by
  induction m with
  | nil => simp [smGet]
  | cons e rest ih =>
    obtain ⟨k', v'⟩ := e
    by_cases hk : k' = k
    · simp [smGet, hk]
    · simp [smGet, hk, ih]

theorem smGet_smUpsert_self {α : Type} (m : List (Nat × α)) (k : Nat) (v : α) :
    smGet (smUpsert m k v) k = some v := by
  unfold smUpsert
  by_cases h : (smGet m k).isSome
  · simp [h]
    obtain ⟨w, hw⟩ := Option.isSome_iff_exists.mp h
    exact smGet_smSet_self hw
  · simp [h]
    rw [smGet_append]
    have : smGet m k = none := Option.not_isSome_iff_eq_none.mp h
    simp [this, smGet]

theorem smGet_smUpsert_other {α : Type} (m : List (Nat × α)) (k k' : Nat) (v : α)
    (h : k' ≠ k) : smGet (smUpsert m k v) k' = smGet m k' := by
  unfold smUpsert
  by_cases hs : (smGet m k).isSome
  · simp [hs, smGet_smSet_other m k k' v h]
  · simp [hs]
    rw [smGet_append]
    cases hg : smGet m k' with
    | some w => simp
    | none =>
      have h2 : ¬ k = k' := fun he => h he.symm
      simp [smGet, h2]

theorem smKeys_smUpsert_nodup {α : Type} {m : List (Nat × α)} {k : Nat} {v : α}
    (h : (smKeys m).Nodup) : (smKeys (smUpsert m k v)).Nodup := by
  unfold smUpsert
  by_cases hs : (smGet m k).isSome
  · simpa [hs, smKeys_smSet] using h
  · simp only [hs, Bool.false_eq_true, if_false]
    have hk : k ∉ smKeys m := fun hmem => by
      rw [← smGet_isSome_iff] at hmem
      exact absurd hmem (by simpa using hs)
    simp [smKeys] at h hk ⊢
    exact List.nodup_middle.mpr (by simpa using List.nodup_cons.mpr ⟨by simpa using hk, h⟩)

/-! ### Concrete witness graphs (type tag `Nat`, value `Nat`) -/

/-- Type-conversion gate used by the witnesses: exact equality, the default
`DataType::can_convert_to`. -/
def natConvert (a b : Nat) : Bool := a = b

/-- A three-node chain: node 0 (output "o", port 10) feeds node 1's input "x"
(port 20, default 5) through connection 100; node 1's output "p" (port 11)
feeds node 2's input "y" (port 21, no default) through connection 101. -/
def gChain : Graph Nat Nat :=
  { node_data :=
      [(0, ⟨[], [("o", 10)]⟩), (1, ⟨[("x", 20)], [("p", 11)]⟩),
        (2, ⟨[("y", 21)], []⟩)]
    nodes := [0, 1, 2]
    connections := [(100, ⟨10, 20⟩), (101, ⟨11, 21⟩)]
    input_ports :=
      [(20, ⟨1, "x", 0, some 5, [100], []⟩), (21, ⟨2, "y", 0, none, [101], []⟩)]
    output_ports :=
      [(10, ⟨0, "o", 0, none, [], [100]⟩), (11, ⟨1, "p", 0, none, [], [101]⟩)]
    next_connection := 102
    next_input := 22
    next_output := 12 }

/-- Fan-in scenario: producers node 0 (output port 10) and node 1 (output
port 11) both feed input "x" (port 20, no default) of consumer node 2,
through connections 100 and 101, in that order. -/
def gFanIn : Graph Nat Nat :=
  { node_data :=
      [(0, ⟨[], [("o", 10)]⟩), (1, ⟨[], [("o", 11)]⟩), (2, ⟨[("x", 20)], []⟩)]
    nodes := [0, 1, 2]
    connections := [(100, ⟨10, 20⟩), (101, ⟨11, 20⟩)]
    input_ports := [(20, ⟨2, "x", 0, none, [100, 101], []⟩)]
    output_ports :=
      [(10, ⟨0, "o", 0, none, [], [100]⟩), (11, ⟨1, "o", 0, none, [], [101]⟩)]
    next_connection := 102
    next_input := 21
    next_output := 12 }

/-- The cache after the two fan-in producers wrote 3 and 4. -/
def fanCache : OutputCache Nat := [(10, 3), (11, 4)]

/-- The empty graph. -/
def gEmpty : Graph Nat Nat :=
  { node_data := []
    nodes := []
    connections := []
    input_ports := []
    output_ports := []
    next_connection := 0
    next_input := 0
    next_output := 0 }

theorem gChain_wf : WF gChain := by
  constructor <;> decide

theorem gFanIn_wf : WF gFanIn := by
  constructor <;> decide

/-! ### C7: `can_connect` -/

/-- C7 counterexample: `can_connect` is not total over all reference pairs —
on the empty graph a name reference fails to resolve and the call panics
(`expect`), modelled by `none`: no boolean is ever returned, refuting
"it returns (rather than aborting) for every pair of references". -/
theorem can_connect_aborts_on_unresolved :
    can_connect gEmpty natConvert (OutputRef.name 0 "o") (InputRef.name 0 "i")
      = none := by
  decide

/-- C7 (amended): for every pair of references that resolve to ports present
in the arenas, `can_connect` returns a boolean (it is a pure function of the
graph, mutating nothing) that is `true` exactly when the two ports belong to
different nodes and the output type converts to the input type; when a
reference does not resolve the call is fatal instead of returning. -/
theorem can_connect_spec {T V : Type} (g : Graph T V) (conv : T → T → Bool)
    (sref : OutputRef) (eref : InputRef) (sp : OutputPortId) (ep : InputPortId)
    (s e : Port T V)
    (hs : resolveOutput g sref = some sp)
    (he : resolveInput g eref = some ep)
    (hsp : smGet g.output_ports sp = some s)
    (hep : smGet g.input_ports ep = some e) :
    can_connect g conv sref eref = some (decide (s.node ≠ e.node) && conv s.ty e.ty)
      ∧ (can_connect g conv sref eref = some true ↔
          s.node ≠ e.node ∧ conv s.ty e.ty = true) := by
  have hval : can_connect g conv sref eref
      = some (decide (s.node ≠ e.node) && conv s.ty e.ty) := by
    unfold can_connect
    rw [hs]
    simp only [Option.bind_eq_bind, Option.some_bind]
    rw [he]
    simp only [Option.some_bind]
    rw [hsp]
    simp only [Option.some_bind]
    rw [hep]
    rfl
  refine ⟨hval, ?_⟩
  rw [hval]
  constructor
  · intro h
    have h2 := Option.some.injEq .. ▸ h
    simp at h2
    exact ⟨h2.1, h2.2⟩
  · intro ⟨h1, h2⟩
    simp [h1, h2]

/-- Witness for C7's amended theorem at the chain graph: output "o" of node 0
against input "x" of node 1 — different nodes, identical types. -/
theorem can_connect_spec_witness :
    can_connect gChain natConvert (OutputRef.name 0 "o") (InputRef.name 1 "x")
        = some (decide ((0 : NodeId) ≠ 1) && natConvert 0 0)
      ∧ (can_connect gChain natConvert (OutputRef.name 0 "o") (InputRef.name 1 "x")
            = some true ↔ (0 : NodeId) ≠ 1 ∧ natConvert 0 0 = true) :=
  can_connect_spec gChain natConvert (OutputRef.name 0 "o") (InputRef.name 1 "x")
    10 20 ⟨0, "o", 0, none, [], [100]⟩ ⟨1, "x", 0, some 5, [100], []⟩
    (by decide) (by decide) (by decide) (by decide)

/-! ### C4: `catagorize_nodes` is a partition -/

/-- The body of the `any` closures of `catagorize_nodes`, as a boolean (only
meaningful when the port lookup succeeds; `false` on a missing port). -/
def port_connected {T V : Type} (arena : List (Nat × Port T V))
    (connsOf : Port T V → List ConnectionId) (e : String × Nat) : Bool :=
  match smGet arena e.2 with
  | some p => decide (0 < (connsOf p).length)
  | none => false

theorem any_port_connected_eq {T V : Type} {arena : List (Nat × Port T V)}
    {connsOf : Port T V → List ConnectionId} {l : List (String × Nat)}
    (h : ∀ e ∈ l, (smGet arena e.2).isSome = true) :
    any_port_connected arena connsOf l = some (l.any (port_connected arena connsOf)) := by
  induction l with
  | nil => simp [any_port_connected]
  | cons e rest ih =>
    obtain ⟨p, hp⟩ := Option.isSome_iff_exists.mp (h e (List.mem_cons_self _ _))
    by_cases hc : 0 < (connsOf p).length
    · simp [any_port_connected, hp, hc, List.any_cons, port_connected]
    · simp only [any_port_connected, hp, Option.some_bind, hc, if_false]
      rw [ih (fun e' he' => h e' (List.mem_cons_of_mem _ he'))]
      simp [List.any_cons, port_connected, hp, hc]

/-- `has_incoming_connections` of a node record. -/
def node_has_in {T V : Type} (g : Graph T V) (e : NodeId × NodeData) : Bool :=
  e.2.inputs.any (port_connected g.input_ports Port.incoming_connections)

/-- `has_outgoing_connections` of a node record. -/
def node_has_out {T V : Type} (g : Graph T V) (e : NodeId × NodeData) : Bool :=
  e.2.outputs.any (port_connected g.output_ports Port.outgoing_connections)

/-- Some input port of `nd` has at least one incoming connection. -/
def NodeHasIncoming {T V : Type} (g : Graph T V) (nd : NodeData) : Prop :=
  ∃ pe ∈ nd.inputs, ∃ p, smGet g.input_ports pe.2 = some p ∧
    p.incoming_connections ≠ []

/-- Some output port of `nd` has at least one outgoing connection. -/
def NodeHasOutgoing {T V : Type} (g : Graph T V) (nd : NodeData) : Prop :=
  ∃ pe ∈ nd.outputs, ∃ p, smGet g.output_ports pe.2 = some p ∧
    p.outgoing_connections ≠ []

theorem node_has_in_iff {T V : Type} {g : Graph T V} {n : NodeId} {nd : NodeData} :
    node_has_in g (n, nd) = true ↔ NodeHasIncoming g nd := by
  unfold node_has_in NodeHasIncoming
  rw [List.any_eq_true]
  constructor
  · rintro ⟨pe, hpe, hc⟩
    unfold port_connected at hc
    cases hg : smGet g.input_ports pe.2 with
    | none => rw [hg] at hc; simp at hc
    | some p =>
      rw [hg] at hc
      simp at hc
      exact ⟨pe, hpe, p, hg, List.ne_nil_of_length_pos hc⟩
  · rintro ⟨pe, hpe, p, hg, hne⟩
    refine ⟨pe, hpe, ?_⟩
    unfold port_connected
    rw [hg]
    simp [List.length_pos_iff_ne_nil.mpr hne]

theorem node_has_out_iff {T V : Type} {g : Graph T V} {n : NodeId} {nd : NodeData} :
    node_has_out g (n, nd) = true ↔ NodeHasOutgoing g nd := by
  unfold node_has_out NodeHasOutgoing
  rw [List.any_eq_true]
  constructor
  · rintro ⟨pe, hpe, hc⟩
    unfold port_connected at hc
    cases hg : smGet g.output_ports pe.2 with
    | none => rw [hg] at hc; simp at hc
    | some p =>
      rw [hg] at hc
      simp at hc
      exact ⟨pe, hpe, p, hg, List.ne_nil_of_length_pos hc⟩
  · rintro ⟨pe, hpe, p, hg, hne⟩
    refine ⟨pe, hpe, ?_⟩
    unfold port_connected
    rw [hg]
    simp [List.length_pos_iff_ne_nil.mpr hne]

theorem catagorize_loop_eq {T V : Type} (g : Graph T V) :
    ∀ (l : List (NodeId × NodeData)) (acc : CatagorizedNodes),
    (∀ e ∈ l, (∀ pe ∈ e.2.inputs, (smGet g.input_ports pe.2).isSome = true) ∧
      (∀ pe ∈ e.2.outputs, (smGet g.output_ports pe.2).isSome = true)) →
    catagorize_loop g l acc = some
      { loose := acc.loose ++
          (l.filter fun e => !node_has_in g e && !node_has_out g e).map Prod.fst
        entry := acc.entry ++
          (l.filter fun e => !node_has_in g e && node_has_out g e).map Prod.fst
        exit := acc.exit ++
          (l.filter fun e => node_has_in g e && !node_has_out g e).map Prod.fst
        net := acc.net ++
          (l.filter fun e => node_has_in g e && node_has_out g e).map Prod.fst } := by
  intro l
  induction l with
  | nil => intro acc _h; simp [catagorize_loop]
  | cons e rest ih =>
    intro acc h
    have he := h e (List.mem_cons_self _ _)
    have hrest : ∀ e' ∈ rest, (∀ pe ∈ e'.2.inputs,
        (smGet g.input_ports pe.2).isSome = true) ∧
        (∀ pe ∈ e'.2.outputs, (smGet g.output_ports pe.2).isSome = true) :=
      fun e' he' => h e' (List.mem_cons_of_mem _ he')
    unfold catagorize_loop
    rw [any_port_connected_eq he.1, any_port_connected_eq he.2]
    simp only [Option.some_bind]
    have hin : e.2.inputs.any (port_connected g.input_ports Port.incoming_connections)
        = node_has_in g e := rfl
    have hout : e.2.outputs.any (port_connected g.output_ports Port.outgoing_connections)
        = node_has_out g e := rfl
    rw [hin, hout]
    cases hi : node_has_in g e <;> cases ho : node_has_out g e <;>
      simp only [ih _ hrest] <;>
      simp [List.filter_cons, hi, ho, List.append_assoc]

/-- Entries of a nodup-keyed association list are determined by their key. -/
theorem smKeys_nodup_entry_unique {α : Type} {m : List (Nat × α)}
    (h : (smKeys m).Nodup) {k : Nat} {a b : α}
    (ha : (k, a) ∈ m) (hb : (k, b) ∈ m) : a = b := by
  have h1 := smGet_eq_of_mem_nodup ha h
  have h2 := smGet_eq_of_mem_nodup hb h
  rw [h1] at h2
  exact (Option.some.injEq .. ▸ h2)

theorem class_mem_iff {T V : Type} {g : Graph T V} (hwf : WF g)
    (b : Bool → Bool → Bool) {n : NodeId} {nd : NodeData}
    (hmem : (n, nd) ∈ g.node_data) :
    (n ∈ (g.node_data.filter fun e =>
        b (node_has_in g e) (node_has_out g e)).map Prod.fst)
      ↔ b (node_has_in g (n, nd)) (node_has_out g (n, nd)) = true := by
  constructor
  · intro hn
    obtain ⟨e, hef, hfst⟩ := List.mem_map.mp hn
    obtain ⟨he, hb⟩ := List.mem_filter.mp hef
    obtain ⟨n2, nd2⟩ := e
    have hn2 : n2 = n := hfst
    subst hn2
    have hnd : nd2 = nd := smKeys_nodup_entry_unique hwf.node_keys_nodup he hmem
    subst hnd
    exact hb
  · intro hb
    exact List.mem_map.mpr ⟨(n, nd), List.mem_filter.mpr ⟨hmem, hb⟩, rfl⟩

theorem class_mem_entry {T V : Type} {g : Graph T V} (b : NodeId × NodeData → Bool)
    {n : NodeId} (hn : n ∈ (g.node_data.filter b).map Prod.fst) :
    ∃ nd, (n, nd) ∈ g.node_data := by
  obtain ⟨e, hef, hfst⟩ := List.mem_map.mp hn
  obtain ⟨he, _⟩ := List.mem_filter.mp hef
  exact ⟨e.2, by rwa [← hfst, Prod.mk.eta]⟩

/-- C4: on every well-formed graph `catagorize_nodes` succeeds and partitions
the node-id set: every node id of the graph lands in exactly one of
loose/entry/exit/net, the four lists are duplicate-free and pairwise
disjoint, their union is the full node set, membership in each list is
characterized by the connectivity of the node's ports, and a node all of
whose ports have empty connection lists is loose even if it has declared
ports. -/
theorem catagorize_nodes_partition {T V : Type} (g : Graph T V) (hwf : WF g) :
    ∃ r, catagorize_nodes g = some r ∧
      (∀ n, n ∈ smKeys g.node_data ↔
        (n ∈ r.loose ∨ n ∈ r.entry ∨ n ∈ r.exit ∨ n ∈ r.net)) ∧
      (r.loose.Nodup ∧ r.entry.Nodup ∧ r.exit.Nodup ∧ r.net.Nodup) ∧
      (∀ n nd, (n, nd) ∈ g.node_data →
        ((n ∈ r.loose ↔ ¬NodeHasIncoming g nd ∧ ¬NodeHasOutgoing g nd) ∧
         (n ∈ r.entry ↔ ¬NodeHasIncoming g nd ∧ NodeHasOutgoing g nd) ∧
         (n ∈ r.exit ↔ NodeHasIncoming g nd ∧ ¬NodeHasOutgoing g nd) ∧
         (n ∈ r.net ↔ NodeHasIncoming g nd ∧ NodeHasOutgoing g nd))) ∧
      (∀ n, ¬(n ∈ r.loose ∧ n ∈ r.entry) ∧ ¬(n ∈ r.loose ∧ n ∈ r.exit) ∧
        ¬(n ∈ r.loose ∧ n ∈ r.net) ∧ ¬(n ∈ r.entry ∧ n ∈ r.exit) ∧
        ¬(n ∈ r.entry ∧ n ∈ r.net) ∧ ¬(n ∈ r.exit ∧ n ∈ r.net)) ∧
      (∀ n nd, (n, nd) ∈ g.node_data →
        (∀ pe ∈ nd.inputs, OptHolds (smGet g.input_ports pe.2)
          fun p => p.incoming_connections = []) →
        (∀ pe ∈ nd.outputs, OptHolds (smGet g.output_ports pe.2)
          fun p => p.outgoing_connections = []) →
        n ∈ r.loose) := by
  have hsucc : ∀ e ∈ g.node_data, (∀ pe ∈ e.2.inputs,
      (smGet g.input_ports pe.2).isSome = true) ∧
      (∀ pe ∈ e.2.outputs, (smGet g.output_ports pe.2).isSome = true) := by
    intro e he
    obtain ⟨_, hi, ho⟩ := hwf.node_data_ok e he
    constructor
    · intro pe hpe
      have := hi pe hpe
      rw [optHolds_iff] at this
      obtain ⟨p, hp, _⟩ := this
      simp [hp]
    · intro pe hpe
      have := ho pe hpe
      rw [optHolds_iff] at this
      obtain ⟨p, hp, _⟩ := this
      simp [hp]
  have heq := catagorize_loop_eq g g.node_data ⟨[], [], [], []⟩ hsucc
  refine ⟨_, heq, ?_, ?_, ?_, ?_, ?_⟩
  · -- membership: keys ↔ one of the four lists
    intro n
    simp only [List.nil_append, List.mem_map, List.mem_filter, smKeys]
    constructor
    · intro hn
      obtain ⟨e, he, hfst⟩ := hn
      cases hi : node_has_in g e <;> cases ho : node_has_out g e
      · exact Or.inl ⟨e, ⟨he, by simp [hi, ho]⟩, hfst⟩
      · exact Or.inr (Or.inl ⟨e, ⟨he, by simp [hi, ho]⟩, hfst⟩)
      · exact Or.inr (Or.inr (Or.inl ⟨e, ⟨he, by simp [hi, ho]⟩, hfst⟩))
      · exact Or.inr (Or.inr (Or.inr ⟨e, ⟨he, by simp [hi, ho]⟩, hfst⟩))
    · rintro (⟨e, ⟨he, _⟩, hfst⟩ | ⟨e, ⟨he, _⟩, hfst⟩ | ⟨e, ⟨he, _⟩, hfst⟩ |
        ⟨e, ⟨he, _⟩, hfst⟩) <;> exact ⟨e, he, hfst⟩
  · -- nodup of the four lists
    have hkeys : (g.node_data.map Prod.fst).Nodup := hwf.node_keys_nodup
    refine ⟨?_, ?_, ?_, ?_⟩ <;>
      · simp only [List.nil_append]
        exact List.Nodup.sublist ((List.filter_sublist _).map Prod.fst) hkeys
  · -- class characterizations
    intro n nd hmem
    simp only [List.nil_append]
    rw [class_mem_iff hwf (fun x y => !x && !y) hmem,
      class_mem_iff hwf (fun x y => !x && y) hmem,
      class_mem_iff hwf (fun x y => x && !y) hmem,
      class_mem_iff hwf (fun x y => x && y) hmem,
      ← @node_has_in_iff T V g n nd,
      ← @node_has_out_iff T V g n nd]
    cases node_has_in g (n, nd) <;> cases node_has_out g (n, nd) <;> simp
  · -- pairwise disjointness
    intro n
    have hdis : ∀ (b1 b2 : Bool → Bool → Bool),
        (∀ x y, ¬(b1 x y = true ∧ b2 x y = true)) →
        n ∈ ((g.node_data.filter fun e =>
          b1 (node_has_in g e) (node_has_out g e)).map Prod.fst) →
        n ∈ ((g.node_data.filter fun e =>
          b2 (node_has_in g e) (node_has_out g e)).map Prod.fst) → False := by
      intro b1 b2 hne h1 h2
      obtain ⟨nd, hmem⟩ := class_mem_entry _ h1
      rw [class_mem_iff hwf b1 hmem] at h1
      rw [class_mem_iff hwf b2 hmem] at h2
      exact hne _ _ ⟨h1, h2⟩
    simp only [List.nil_append]
    refine ⟨?_, ?_, ?_, ?_, ?_, ?_⟩
    · rintro ⟨h1, h2⟩
      exact hdis (fun x y => !x && !y) (fun x y => !x && y)
        (by intro x y; cases x <;> cases y <;> simp) h1 h2
    · rintro ⟨h1, h2⟩
      exact hdis (fun x y => !x && !y) (fun x y => x && !y)
        (by intro x y; cases x <;> cases y <;> simp) h1 h2
    · rintro ⟨h1, h2⟩
      exact hdis (fun x y => !x && !y) (fun x y => x && y)
        (by intro x y; cases x <;> cases y <;> simp) h1 h2
    · rintro ⟨h1, h2⟩
      exact hdis (fun x y => !x && y) (fun x y => x && !y)
        (by intro x y; cases x <;> cases y <;> simp) h1 h2
    · rintro ⟨h1, h2⟩
      exact hdis (fun x y => !x && y) (fun x y => x && y)
        (by intro x y; cases x <;> cases y <;> simp) h1 h2
    · rintro ⟨h1, h2⟩
      exact hdis (fun x y => x && !y) (fun x y => x && y)
        (by intro x y; cases x <;> cases y <;> simp) h1 h2
  · -- all-empty ports imply loose
    intro n nd hmem hi ho
    simp only [List.nil_append]
    rw [class_mem_iff hwf (fun x y => !x && !y) hmem]
    have h1 : node_has_in g (n, nd) = false := by
      rw [← Bool.not_eq_true, node_has_in_iff]
      rintro ⟨pe, hpe, p, hp, hne⟩
      have := hi pe hpe
      rw [hp] at this
      exact hne this
    have h2 : node_has_out g (n, nd) = false := by
      rw [← Bool.not_eq_true, node_has_out_iff]
      rintro ⟨pe, hpe, p, hp, hne⟩
      have := ho pe hpe
      rw [hp] at this
      exact hne this
    simp [h1, h2]

/-- Witness for C4 at the chain graph. -/
theorem catagorize_nodes_partition_witness :
    ∃ r, catagorize_nodes gChain = some r ∧
      (∀ n, n ∈ smKeys gChain.node_data ↔
        (n ∈ r.loose ∨ n ∈ r.entry ∨ n ∈ r.exit ∨ n ∈ r.net)) ∧
      (r.loose.Nodup ∧ r.entry.Nodup ∧ r.exit.Nodup ∧ r.net.Nodup) ∧
      (∀ n nd, (n, nd) ∈ gChain.node_data →
        ((n ∈ r.loose ↔ ¬NodeHasIncoming gChain nd ∧ ¬NodeHasOutgoing gChain nd) ∧
         (n ∈ r.entry ↔ ¬NodeHasIncoming gChain nd ∧ NodeHasOutgoing gChain nd) ∧
         (n ∈ r.exit ↔ NodeHasIncoming gChain nd ∧ ¬NodeHasOutgoing gChain nd) ∧
         (n ∈ r.net ↔ NodeHasIncoming gChain nd ∧ NodeHasOutgoing gChain nd))) ∧
      (∀ n, ¬(n ∈ r.loose ∧ n ∈ r.entry) ∧ ¬(n ∈ r.loose ∧ n ∈ r.exit) ∧
        ¬(n ∈ r.loose ∧ n ∈ r.net) ∧ ¬(n ∈ r.entry ∧ n ∈ r.exit) ∧
        ¬(n ∈ r.entry ∧ n ∈ r.net) ∧ ¬(n ∈ r.exit ∧ n ∈ r.net)) ∧
      (∀ n nd, (n, nd) ∈ gChain.node_data →
        (∀ pe ∈ nd.inputs, OptHolds (smGet gChain.input_ports pe.2)
          fun p => p.incoming_connections = []) →
        (∀ pe ∈ nd.outputs, OptHolds (smGet gChain.output_ports pe.2)
          fun p => p.outgoing_connections = []) →
        n ∈ r.loose) :=
  catagorize_nodes_partition gChain gChain_wf

/-! ### C9: port creation is fatal exactly on duplicate names -/

theorem smGet_append_right_of_fresh {α : Type} {m : List (Nat × α)} {k : Nat}
    (hfresh : ∀ e ∈ m, e.1 < k) (v : α) : smGet (m ++ [(k, v)]) k = some v := by
  rw [smGet_append]
  cases hg : smGet m k with
  | some w =>
    have := hfresh (k, w) (smGet_mem hg)
    exact absurd this (lt_irrefl k)
  | none => simp [smGet]

/-- C9: for every existing node, `create_input_port` and `create_output_port`
are fatal exactly when the name already names a port of the same kind on that
node; the fatal case leaves the graph (and hence the node's port list)
unchanged, and the success case appends the new port at the end of the node's
ordered port list (its ordinal position is the previous list length), stores
it in the arena, and fires the port-created lifecycle hook exactly once with
the new id. -/
theorem create_port_name_spec {T V : Type} (g : Graph T V) (node : NodeId)
    (nm : String) (ty : T) (default : V) (nd : NodeData) (hwf : WF g)
    (hnd : smGet g.node_data node = some nd) (hn : node ∈ g.nodes) :
    ((∃ e ∈ nd.inputs, e.1 = nm) →
      create_input_port g node nm ty default
        = .fatal g "An input port with this name already exists") ∧
    ((¬∃ e ∈ nd.inputs, e.1 = nm) →
      ∃ g', create_input_port g node nm ty default
          = .ok g' g.next_input [HookEvent.inputPortCreated node nm g.next_input] ∧
        smGet g'.node_data node
          = some { nd with inputs := nd.inputs ++ [(nm, g.next_input)] } ∧
        get_input_port_at g' node nd.inputs.length = some g.next_input ∧
        get_input_port g' node nm = some g.next_input ∧
        smGet g'.input_ports g.next_input
          = some (Port.new node nm ty (some default))) ∧
    ((∃ e ∈ nd.outputs, e.1 = nm) →
      create_output_port g node nm ty
        = .fatal g "An output port with this name already exists") ∧
    ((¬∃ e ∈ nd.outputs, e.1 = nm) →
      ∃ g', create_output_port g node nm ty
          = .ok g' g.next_output [HookEvent.outputPortCreated node nm g.next_output] ∧
        smGet g'.node_data node
          = some { nd with outputs := nd.outputs ++ [(nm, g.next_output)] } ∧
        get_output_port_at g' node nd.outputs.length = some g.next_output ∧
        smGet g'.output_ports g.next_output = some (Port.new node nm ty none)) := by
  refine ⟨?_, ?_, ?_, ?_⟩
  · intro hdup
    have hany : nd.inputs.any (fun e => e.1 = nm) = true := by
      rw [List.any_eq_true]
      obtain ⟨e, he, hname⟩ := hdup
      exact ⟨e, he, by simp [hname]⟩
    unfold create_input_port
    rw [hnd]
    simp [hany]
  · intro hdup
    have hany : nd.inputs.any (fun e => e.1 = nm) = false := by
      rw [← Bool.not_eq_true, List.any_eq_true]
      rintro ⟨e, he, hname⟩
      exact hdup ⟨e, he, by simpa using hname⟩
    unfold create_input_port
    rw [hnd]
    simp only [hany, Bool.false_eq_true, if_false]
    have hnodes : node ∈ g.nodes := hn
    refine ⟨{ g with
        input_ports := g.input_ports ++ [(g.next_input, Port.new node nm ty (some default))]
        next_input := g.next_input + 1
        node_data := smSet g.node_data node
          { nd with inputs := nd.inputs ++ [(nm, g.next_input)] } },
      by simp [hnodes], ?_, ?_, ?_, ?_⟩
    · exact smGet_smSet_self hnd
    · unfold get_input_port_at
      rw [smGet_smSet_self hnd]
      simp [List.get?_concat_length]
    · unfold get_input_port
      rw [smGet_smSet_self hnd]
      simp only [Option.some_bind]
      rw [List.find?_append]
      have hfind : nd.inputs.find? (fun e => e.1 = nm) = none := by
        rw [List.find?_eq_none]
        intro e he
        simp only [decide_eq_true_eq]
        intro hname
        exact hdup ⟨e, he, hname⟩
      simp [hfind, List.find?]
    · exact smGet_append_right_of_fresh (fun e he => hwf.input_fresh e he) _
  · intro hdup
    have hany : nd.outputs.any (fun e => e.1 = nm) = true := by
      rw [List.any_eq_true]
      obtain ⟨e, he, hname⟩ := hdup
      exact ⟨e, he, by simp [hname]⟩
    unfold create_output_port
    rw [hnd]
    simp [hany]
  · intro hdup
    have hany : nd.outputs.any (fun e => e.1 = nm) = false := by
      rw [← Bool.not_eq_true, List.any_eq_true]
      rintro ⟨e, he, hname⟩
      exact hdup ⟨e, he, by simpa using hname⟩
    unfold create_output_port
    rw [hnd]
    simp only [hany, Bool.false_eq_true, if_false]
    have hnodes : node ∈ g.nodes := hn
    refine ⟨{ g with
        output_ports := g.output_ports ++ [(g.next_output, Port.new node nm ty none)]
        next_output := g.next_output + 1
        node_data := smSet g.node_data node
          { nd with outputs := nd.outputs ++ [(nm, g.next_output)] } },
      by simp [hnodes], ?_, ?_, ?_⟩
    · exact smGet_smSet_self hnd
    · unfold get_output_port_at
      rw [smGet_smSet_self hnd]
      simp [List.get?_concat_length]
    · exact smGet_append_right_of_fresh (fun e he => hwf.output_fresh e he) _

/-- Witness for C9 at the chain graph, node 1 (which has input "x" and
output "p"): creating input "x" again is rejected with the graph unchanged,
while creating a fresh input appends at ordinal position 1. -/
theorem create_port_name_spec_witness :
    ((∃ e ∈ (NodeData.mk [("x", 20)] [("p", 11)]).inputs, e.1 = "x") →
      create_input_port gChain 1 "x" 0 7
        = .fatal gChain "An input port with this name already exists") ∧
    ((¬∃ e ∈ (NodeData.mk [("x", 20)] [("p", 11)]).inputs, e.1 = "x") →
      ∃ g', create_input_port gChain 1 "x" 0 7
          = .ok g' gChain.next_input [HookEvent.inputPortCreated 1 "x" gChain.next_input] ∧
        smGet g'.node_data 1
          = some { NodeData.mk [("x", 20)] [("p", 11)] with
              inputs := [("x", 20)] ++ [("x", gChain.next_input)] } ∧
        get_input_port_at g' 1 [("x", 20)].length = some gChain.next_input ∧
        get_input_port g' 1 "x" = some gChain.next_input ∧
        smGet g'.input_ports gChain.next_input
          = some (Port.new 1 "x" 0 (some 7))) ∧
    ((∃ e ∈ (NodeData.mk [("x", 20)] [("p", 11)]).outputs, e.1 = "x") →
      create_output_port gChain 1 "x" 0
        = .fatal gChain "An output port with this name already exists") ∧
    ((¬∃ e ∈ (NodeData.mk [("x", 20)] [("p", 11)]).outputs, e.1 = "x") →
      ∃ g', create_output_port gChain 1 "x" 0
          = .ok g' gChain.next_output [HookEvent.outputPortCreated 1 "x" gChain.next_output] ∧
        smGet g'.node_data 1
          = some { NodeData.mk [("x", 20)] [("p", 11)] with
              outputs := [("p", 11)] ++ [("x", gChain.next_output)] } ∧
        get_output_port_at g' 1 [("p", 11)].length = some gChain.next_output ∧
        smGet g'.output_ports gChain.next_output = some (Port.new 1 "x" 0 none)) :=
  create_port_name_spec gChain 1 "x" 0 7 (NodeData.mk [("x", 20)] [("p", 11)])
    gChain_wf (by decide) (by decide)

/-! ### Port deletion: loop invariant and specification -/

theorem removeFirst_eq_filter {l : List Nat} (h : l.Nodup) (c : Nat) :
    removeFirst l c = l.filter (fun x => x ≠ c) := by
  induction l with
  | nil => simp [removeFirst]
  | cons a rest ih =>
    rw [List.nodup_cons] at h
    by_cases hac : a = c
    · subst hac
      have hfr : List.filter (fun x => !decide (x = a)) rest = rest :=
        List.filter_eq_self.mpr (fun x hx => by
          simp only [Bool.not_eq_true', decide_eq_false_iff_not]
          intro he
          exact h.1 (he ▸ hx))
      simp [removeFirst, List.filter_cons, hfr]
    · simp [removeFirst, List.filter_cons, hac, ih h.2]

theorem mem_removeFirst_of_ne {l : List Nat} {a c : Nat} (ha : a ∈ l)
    (hne : a ≠ c) : a ∈ removeFirst l c := by
  induction l with
  | nil => simp at ha
  | cons b rest ih =>
    by_cases hbc : b = c
    · subst hbc
      simp only [removeFirst, if_pos rfl]
      rcases List.mem_cons.mp ha with h | h
      · exact absurd h hne
      · exact h
    · simp only [removeFirst, if_neg hbc]
      rcases List.mem_cons.mp ha with h | h
      · exact h ▸ List.mem_cons_self _ _
      · exact List.mem_cons_of_mem _ (ih h)

theorem mem_of_mem_removeFirst {l : List Nat} {a c : Nat}
    (ha : a ∈ removeFirst l c) : a ∈ l := by
  induction l with
  | nil => simp [removeFirst] at ha
  | cons b rest ih =>
    by_cases hbc : b = c
    · subst hbc
      simp only [removeFirst, if_pos rfl] at ha
      exact List.mem_cons_of_mem _ ha
    · simp only [removeFirst, if_neg hbc] at ha
      rcases List.mem_cons.mp ha with h | h
      · exact h ▸ List.mem_cons_self _ _
      · exact List.mem_cons_of_mem _ (ih h)

/-- The `output_connection_removed` hook event fired for a drained incoming
connection id (the `getD` fallbacks are never reached under the invariant). -/
def del_out_event {T V : Type} (g : Graph T V) (cid : ConnectionId) : HookEvent :=
  HookEvent.outputConnectionRemoved
    (((smGet g.connections cid).bind fun c =>
      (smGet g.output_ports c.start_port).map Port.node).getD 0)
    (((smGet g.connections cid).map Connection.start_port).getD 0)
    cid

/-- The `input_connection_removed` hook event fired for a drained outgoing
connection id. -/
def del_in_event {T V : Type} (g : Graph T V) (cid : ConnectionId) : HookEvent :=
  HookEvent.inputConnectionRemoved
    (((smGet g.connections cid).bind fun c =>
      (smGet g.input_ports c.end_port).map Port.node).getD 0)
    (((smGet g.connections cid).map Connection.end_port).getD 0)
    cid

/-- Invariant of `delete_input_loop` relative to the list `l` of connection
ids still to drain. -/
structure DelInvIn {T V : Type} (g : Graph T V) (l : List ConnectionId) : Prop where
  nodup : l.Nodup
  conn_of : ∀ cid ∈ l, OptHolds (smGet g.connections cid) fun c =>
    OptHolds (smGet g.output_ports c.start_port) fun sp =>
      cid ∈ sp.outgoing_connections ∧ sp.node ∈ g.nodes
  out_nodup : ∀ e ∈ g.output_ports, e.2.outgoing_connections.Nodup
  out_start : ∀ e ∈ g.output_ports, ∀ cid ∈ e.2.outgoing_connections, cid ∈ l →
    OptHolds (smGet g.connections cid) fun c => c.start_port = e.1
  out_keys : (smKeys g.output_ports).Nodup

theorem delete_input_loop_spec {T V : Type} :
    ∀ (l : List ConnectionId) (g : Graph T V) (evs : List HookEvent),
    DelInvIn g l →
    ∃ g', delete_input_loop l g evs = .ok g' (evs ++ l.map (del_out_event g)) ∧
      g'.input_ports = g.input_ports ∧ g'.node_data = g.node_data ∧
      g'.nodes = g.nodes ∧ g'.next_connection = g.next_connection ∧
      g'.next_input = g.next_input ∧ g'.next_output = g.next_output ∧
      (∀ cid, smGet g'.connections cid =
        if cid ∈ l then none else smGet g.connections cid) ∧
      (∀ q, smGet g'.output_ports q = (smGet g.output_ports q).map fun p =>
        { p with outgoing_connections :=
            p.outgoing_connections.filter fun c => c ∉ l }) := by
  intro l
  induction l with
  | nil =>
    intro g evs _inv
    refine ⟨g, by simp [delete_input_loop], rfl, rfl, rfl, rfl, rfl, rfl, ?_, ?_⟩
    · intro cid; simp
    · intro q
      cases hq : smGet g.output_ports q with
      | none => simp
      | some p => simp
  | cons cid rest ih =>
    intro g evs inv
    have hmem : cid ∈ cid :: rest := List.mem_cons_self _ _
    have h1 := inv.conn_of cid hmem
    rw [optHolds_iff] at h1
    obtain ⟨c, hc, h2⟩ := h1
    rw [optHolds_iff] at h2
    obtain ⟨sp, hsp, hcid_out, hnode⟩ := h2
    have hnodup := List.nodup_cons.mp inv.nodup
    -- The new graph after this iteration.
    have hspmem : (c.start_port, sp) ∈ g.output_ports := smGet_mem hsp
    obtain ⟨G2, hG2c, hG2o, hG2ip, hG2nd, hG2ns, hG2nc, hG2ni, hG2no, hstep⟩ :
        ∃ G2 : Graph T V,
          G2.connections = smRemove g.connections cid ∧
          G2.output_ports = smSet g.output_ports c.start_port
            { sp with outgoing_connections :=
                removeFirst sp.outgoing_connections cid } ∧
          G2.input_ports = g.input_ports ∧ G2.node_data = g.node_data ∧
          G2.nodes = g.nodes ∧ G2.next_connection = g.next_connection ∧
          G2.next_input = g.next_input ∧ G2.next_output = g.next_output ∧
          delete_input_loop (cid :: rest) g evs = delete_input_loop rest G2
            (evs ++ [HookEvent.outputConnectionRemoved sp.node c.start_port cid]) :=
      ⟨{ g with
          connections := smRemove g.connections cid
          output_ports := smSet g.output_ports c.start_port
            { sp with outgoing_connections :=
                removeFirst sp.outgoing_connections cid } },
        rfl, rfl, rfl, rfl, rfl, rfl, rfl, rfl, by
          simp only [delete_input_loop, hc, hsp, if_pos hcid_out, if_pos hnode]⟩
    have hinv2 : DelInvIn G2 rest := by
      refine ⟨hnodup.2, ?_, ?_, ?_, ?_⟩
      · intro cid' hcid'
        have hne : cid' ≠ cid := fun he => hnodup.1 (he ▸ hcid')
        have h := inv.conn_of cid' (List.mem_cons_of_mem _ hcid')
        rw [optHolds_iff] at h
        obtain ⟨c', hc', h'⟩ := h
        rw [optHolds_iff] at h'
        obtain ⟨sp', hsp', hmem', hnode'⟩ := h'
        rw [optHolds_iff]
        refine ⟨c', by rw [hG2c, smGet_smRemove_other _ _ _ hne]; exact hc', ?_⟩
        rw [optHolds_iff]
        by_cases hq : c'.start_port = c.start_port
        · rw [hq] at hsp' ⊢
          rw [hsp] at hsp'
          have hsp'eq : sp' = sp := (Option.some.inj hsp').symm
          subst hsp'eq
          refine ⟨_, by rw [hG2o]; exact smGet_smSet_self hsp, ?_, ?_⟩
          · exact mem_removeFirst_of_ne hmem' hne
          · rw [hG2ns]; exact hnode'
        · refine ⟨sp',
            by rw [hG2o, smGet_smSet_other _ _ _ _ hq]; exact hsp', hmem', ?_⟩
          rw [hG2ns]; exact hnode'
      · intro e he
        rw [hG2o] at he
        rcases mem_smSet he with h | h
        · exact inv.out_nodup e h
        · subst h
          show (removeFirst sp.outgoing_connections cid).Nodup
          rw [removeFirst_eq_filter (inv.out_nodup _ hspmem) cid]
          exact List.Nodup.filter _ (inv.out_nodup _ hspmem)
      · intro e he cid' hcid' hcrest
        have hne : cid' ≠ cid := fun heq => hnodup.1 (heq ▸ hcrest)
        rw [hG2o] at he
        rcases mem_smSet he with h | h
        · have h2 := inv.out_start e h cid' hcid' (List.mem_cons_of_mem _ hcrest)
          rw [optHolds_iff] at h2
          rw [optHolds_iff]
          obtain ⟨c', hc', hstart⟩ := h2
          exact ⟨c', by rw [hG2c, smGet_smRemove_other _ _ _ hne]; exact hc', hstart⟩
        · subst h
          have hcid'' : cid' ∈ sp.outgoing_connections := mem_of_mem_removeFirst hcid'
          have h2 := inv.out_start _ hspmem cid' hcid'' (List.mem_cons_of_mem _ hcrest)
          rw [optHolds_iff] at h2
          rw [optHolds_iff]
          obtain ⟨c', hc', hstart⟩ := h2
          exact ⟨c', by rw [hG2c, smGet_smRemove_other _ _ _ hne]; exact hc', hstart⟩
      · rw [hG2o, smKeys_smSet]
        exact inv.out_keys
    obtain ⟨g', hrun, hip, hnd, hns, hnc, hni, hno, hconn, hout⟩ :=
      ih G2 (evs ++ [HookEvent.outputConnectionRemoved sp.node c.start_port cid]) hinv2
    have hevents : rest.map (del_out_event G2) = rest.map (del_out_event g) := by
      apply List.map_congr_left
      intro cid' hcid'
      have hne : cid' ≠ cid := fun he => hnodup.1 (he ▸ hcid')
      have h := inv.conn_of cid' (List.mem_cons_of_mem _ hcid')
      rw [optHolds_iff] at h
      obtain ⟨c', hc', h'⟩ := h
      rw [optHolds_iff] at h'
      obtain ⟨sp', hsp', _, _⟩ := h'
      unfold del_out_event
      rw [hG2c, smGet_smRemove_other _ _ _ hne, hc']
      simp only [Option.some_bind, Option.map_some', Option.getD_some]
      by_cases hq : c'.start_port = c.start_port
      · rw [hq] at hsp'
        have hspeq : sp' = sp := by
          rw [hsp] at hsp'
          exact (Option.some.inj hsp').symm
        subst hspeq
        rw [hq, hG2o, smGet_smSet_self hsp, hsp]
        simp
      · rw [hG2o, smGet_smSet_other _ _ _ _ hq]
    have hev : del_out_event g cid
        = HookEvent.outputConnectionRemoved sp.node c.start_port cid := by
      simp [del_out_event, hc, hsp]
    refine ⟨g', ?_, ?_, ?_, ?_, ?_, ?_, ?_, ?_, ?_⟩
    · rw [hstep, hrun, hevents, List.map_cons, hev]
      simp
    · rw [hip, hG2ip]
    · rw [hnd, hG2nd]
    · rw [hns, hG2ns]
    · rw [hnc, hG2nc]
    · rw [hni, hG2ni]
    · rw [hno, hG2no]
    · intro cid2
      rw [hconn cid2, hG2c]
      by_cases hr : cid2 ∈ rest
      · simp [hr, List.mem_cons_of_mem _ hr]
      · by_cases hq2 : cid2 = cid
        · subst hq2
          simp [hr, smGet_smRemove_self]
        · have hnotin : cid2 ∉ cid :: rest := by simp [hq2, hr]
          simp [hr, hnotin, smGet_smRemove_other _ _ _ hq2]
    · intro q
      rw [hout q, hG2o]
      by_cases hq2 : q = c.start_port
      · rw [hq2, smGet_smSet_self hsp, hsp]
        have hfil : List.filter (fun c => !decide (c ∈ rest))
              (removeFirst sp.outgoing_connections cid)
            = List.filter (fun c => !decide (c = cid) && !decide (c ∈ rest))
                sp.outgoing_connections := by
          rw [removeFirst_eq_filter (inv.out_nodup _ hspmem) cid, List.filter_filter]
          apply List.filter_congr
          intro x _
          by_cases hx : x = cid <;> by_cases hxr : x ∈ rest <;> simp [hx, hxr]
        simp [hfil]
      · rw [smGet_smSet_other _ _ _ _ hq2]
        cases hgq : smGet g.output_ports q with
        | none => simp
        | some p =>
          have hfil : List.filter (fun c => !decide (c ∈ rest)) p.outgoing_connections
              = List.filter (fun c => !decide (c = cid) && !decide (c ∈ rest))
                  p.outgoing_connections := by
            apply List.filter_congr
            intro x hx
            by_cases hxc : x = cid
            · subst hxc
              have h2 := inv.out_start _ (smGet_mem hgq) x hx hmem
              rw [optHolds_iff] at h2
              obtain ⟨c', hc', hstart⟩ := h2
              rw [hc] at hc'
              have hcc : c = c' := Option.some.inj hc'
              subst hcc
              exact absurd hstart.symm hq2
            · by_cases hxr : x ∈ rest <;> simp [hxc, hxr]
          simp [hfil]

theorem delete_input_port_spec {T V : Type} (g : Graph T V) (r : InputRef)
    (pid : InputPortId) (p : Port T V) (hwf : WF g)
    (hres : resolveInput g r = some pid)
    (hp : smGet g.input_ports pid = some p) :
    ∃ g', delete_input_port g r
        = .ok g' (p.incoming_connections.map (del_out_event g)) ∧
      g'.node_data = g.node_data ∧ g'.nodes = g.nodes ∧
      g'.next_connection = g.next_connection ∧ g'.next_input = g.next_input ∧
      g'.next_output = g.next_output ∧
      (∀ q, smGet g'.input_ports q
        = if q = pid then none else smGet g.input_ports q) ∧
      (∀ cid, smGet g'.connections cid =
        if cid ∈ p.incoming_connections then none else smGet g.connections cid) ∧
      (∀ q, smGet g'.output_ports q = (smGet g.output_ports q).map fun P =>
        { P with outgoing_connections :=
            P.outgoing_connections.filter fun c => c ∉ p.incoming_connections }) := by
  have hpmem : (pid, p) ∈ g.input_ports := smGet_mem hp
  obtain ⟨hconns, hnodup, _hnd, _hnn⟩ := hwf.input_ports_ok _ hpmem
  obtain ⟨G0, hG0ip, hG0c, hG0o, hG0nd, hG0ns, hG0nc, hG0ni, hG0no, hrun⟩ :
      ∃ G0 : Graph T V,
        G0.input_ports = smRemove g.input_ports pid ∧
        G0.connections = g.connections ∧ G0.output_ports = g.output_ports ∧
        G0.node_data = g.node_data ∧ G0.nodes = g.nodes ∧
        G0.next_connection = g.next_connection ∧ G0.next_input = g.next_input ∧
        G0.next_output = g.next_output ∧
        delete_input_port g r = delete_input_loop p.incoming_connections G0 [] :=
    ⟨{ g with input_ports := smRemove g.input_ports pid },
      rfl, rfl, rfl, rfl, rfl, rfl, rfl, rfl, by
        simp only [delete_input_port, hres, hp]⟩
  have hinv : DelInvIn G0 p.incoming_connections := by
    refine ⟨hnodup, ?_, ?_, ?_, ?_⟩
    · intro cid hcid
      have h := hconns cid hcid
      rw [optHolds_iff] at h
      obtain ⟨c, hc, _⟩ := h
      have h2 := hwf.conn_start _ (smGet_mem hc)
      rw [optHolds_iff] at h2
      obtain ⟨sp, hsp, hmem2, hnode2⟩ := h2
      rw [optHolds_iff]
      refine ⟨c, by rw [hG0c]; exact hc, ?_⟩
      rw [optHolds_iff]
      exact ⟨sp, by rw [hG0o]; exact hsp, hmem2, by rw [hG0ns]; exact hnode2⟩
    · intro e he
      rw [hG0o] at he
      exact (hwf.output_ports_ok e he).2.1
    · intro e he cid hcid _
      rw [hG0o] at he
      have h := (hwf.output_ports_ok e he).1 cid hcid
      rw [optHolds_iff] at h
      obtain ⟨c, hc, hstart⟩ := h
      rw [optHolds_iff]
      exact ⟨c, by rw [hG0c]; exact hc, hstart⟩
    · rw [hG0o]
      exact hwf.output_keys_nodup
  obtain ⟨g', hloop, hip, hnd, hns, hnc, hni, hno, hconn, hout⟩ :=
    delete_input_loop_spec p.incoming_connections G0 [] hinv
  have hevent : del_out_event G0 = del_out_event g := by
    funext cid
    unfold del_out_event
    rw [hG0c, hG0o]
  refine ⟨g', ?_, ?_, ?_, ?_, ?_, ?_, ?_, ?_, ?_⟩
  · rw [hrun, hloop, hevent]
    simp
  · rw [hnd, hG0nd]
  · rw [hns, hG0ns]
  · rw [hnc, hG0nc]
  · rw [hni, hG0ni]
  · rw [hno, hG0no]
  · intro q
    rw [hip, hG0ip]
    by_cases hq : q = pid
    · subst hq
      simp [smGet_smRemove_self]
    · simp [hq, smGet_smRemove_other _ _ _ hq]
  · intro cid
    rw [hconn cid, hG0c]
  · intro q
    rw [hout q, hG0o]

/-- Invariant of `delete_output_loop` relative to the list `l` of connection
ids still to drain. -/
structure DelInvOut {T V : Type} (g : Graph T V) (l : List ConnectionId) : Prop where
  nodup : l.Nodup
  conn_of : ∀ cid ∈ l, OptHolds (smGet g.connections cid) fun c =>
    OptHolds (smGet g.input_ports c.end_port) fun sp =>
      cid ∈ sp.incoming_connections ∧ sp.node ∈ g.nodes
  in_nodup : ∀ e ∈ g.input_ports, e.2.incoming_connections.Nodup
  in_end : ∀ e ∈ g.input_ports, ∀ cid ∈ e.2.incoming_connections, cid ∈ l →
    OptHolds (smGet g.connections cid) fun c => c.end_port = e.1
  in_keys : (smKeys g.input_ports).Nodup

theorem delete_output_loop_spec {T V : Type} :
    ∀ (l : List ConnectionId) (g : Graph T V) (evs : List HookEvent),
    DelInvOut g l →
    ∃ g', delete_output_loop l g evs = .ok g' (evs ++ l.map (del_in_event g)) ∧
      g'.output_ports = g.output_ports ∧ g'.node_data = g.node_data ∧
      g'.nodes = g.nodes ∧ g'.next_connection = g.next_connection ∧
      g'.next_input = g.next_input ∧ g'.next_output = g.next_output ∧
      (∀ cid, smGet g'.connections cid =
        if cid ∈ l then none else smGet g.connections cid) ∧
      (∀ q, smGet g'.input_ports q = (smGet g.input_ports q).map fun p =>
        { p with incoming_connections :=
            p.incoming_connections.filter fun c => c ∉ l }) := by
  intro l
  induction l with
  | nil =>
    intro g evs _inv
    refine ⟨g, by simp [delete_output_loop], rfl, rfl, rfl, rfl, rfl, rfl, ?_, ?_⟩
    · intro cid; simp
    · intro q
      cases hq : smGet g.input_ports q with
      | none => simp
      | some p => simp
  | cons cid rest ih =>
    intro g evs inv
    have hmem : cid ∈ cid :: rest := List.mem_cons_self _ _
    have h1 := inv.conn_of cid hmem
    rw [optHolds_iff] at h1
    obtain ⟨c, hc, h2⟩ := h1
    rw [optHolds_iff] at h2
    obtain ⟨sp, hsp, hcid_out, hnode⟩ := h2
    have hnodup := List.nodup_cons.mp inv.nodup
    -- The new graph after this iteration.
    have hspmem : (c.end_port, sp) ∈ g.input_ports := smGet_mem hsp
    obtain ⟨G2, hG2c, hG2o, hG2ip, hG2nd, hG2ns, hG2nc, hG2ni, hG2no, hstep⟩ :
        ∃ G2 : Graph T V,
          G2.connections = smRemove g.connections cid ∧
          G2.input_ports = smSet g.input_ports c.end_port
            { sp with incoming_connections :=
                removeFirst sp.incoming_connections cid } ∧
          G2.output_ports = g.output_ports ∧ G2.node_data = g.node_data ∧
          G2.nodes = g.nodes ∧ G2.next_connection = g.next_connection ∧
          G2.next_input = g.next_input ∧ G2.next_output = g.next_output ∧
          delete_output_loop (cid :: rest) g evs = delete_output_loop rest G2
            (evs ++ [HookEvent.inputConnectionRemoved sp.node c.end_port cid]) :=
      ⟨{ g with
          connections := smRemove g.connections cid
          input_ports := smSet g.input_ports c.end_port
            { sp with incoming_connections :=
                removeFirst sp.incoming_connections cid } },
        rfl, rfl, rfl, rfl, rfl, rfl, rfl, rfl, by
          simp only [delete_output_loop, hc, hsp, if_pos hcid_out, if_pos hnode]⟩
    have hinv2 : DelInvOut G2 rest := by
      refine ⟨hnodup.2, ?_, ?_, ?_, ?_⟩
      · intro cid' hcid'
        have hne : cid' ≠ cid := fun he => hnodup.1 (he ▸ hcid')
        have h := inv.conn_of cid' (List.mem_cons_of_mem _ hcid')
        rw [optHolds_iff] at h
        obtain ⟨c', hc', h'⟩ := h
        rw [optHolds_iff] at h'
        obtain ⟨sp', hsp', hmem', hnode'⟩ := h'
        rw [optHolds_iff]
        refine ⟨c', by rw [hG2c, smGet_smRemove_other _ _ _ hne]; exact hc', ?_⟩
        rw [optHolds_iff]
        by_cases hq : c'.end_port = c.end_port
        · rw [hq] at hsp' ⊢
          rw [hsp] at hsp'
          have hsp'eq : sp' = sp := (Option.some.inj hsp').symm
          subst hsp'eq
          refine ⟨_, by rw [hG2o]; exact smGet_smSet_self hsp, ?_, ?_⟩
          · exact mem_removeFirst_of_ne hmem' hne
          · rw [hG2ns]; exact hnode'
        · refine ⟨sp',
            by rw [hG2o, smGet_smSet_other _ _ _ _ hq]; exact hsp', hmem', ?_⟩
          rw [hG2ns]; exact hnode'
      · intro e he
        rw [hG2o] at he
        rcases mem_smSet he with h | h
        · exact inv.in_nodup e h
        · subst h
          show (removeFirst sp.incoming_connections cid).Nodup
          rw [removeFirst_eq_filter (inv.in_nodup _ hspmem) cid]
          exact List.Nodup.filter _ (inv.in_nodup _ hspmem)
      · intro e he cid' hcid' hcrest
        have hne : cid' ≠ cid := fun heq => hnodup.1 (heq ▸ hcrest)
        rw [hG2o] at he
        rcases mem_smSet he with h | h
        · have h2 := inv.in_end e h cid' hcid' (List.mem_cons_of_mem _ hcrest)
          rw [optHolds_iff] at h2
          rw [optHolds_iff]
          obtain ⟨c', hc', hstart⟩ := h2
          exact ⟨c', by rw [hG2c, smGet_smRemove_other _ _ _ hne]; exact hc', hstart⟩
        · subst h
          have hcid'' : cid' ∈ sp.incoming_connections := mem_of_mem_removeFirst hcid'
          have h2 := inv.in_end _ hspmem cid' hcid'' (List.mem_cons_of_mem _ hcrest)
          rw [optHolds_iff] at h2
          rw [optHolds_iff]
          obtain ⟨c', hc', hstart⟩ := h2
          exact ⟨c', by rw [hG2c, smGet_smRemove_other _ _ _ hne]; exact hc', hstart⟩
      · rw [hG2o, smKeys_smSet]
        exact inv.in_keys
    obtain ⟨g', hrun, hip, hnd, hns, hnc, hni, hno, hconn, hout⟩ :=
      ih G2 (evs ++ [HookEvent.inputConnectionRemoved sp.node c.end_port cid]) hinv2
    have hevents : rest.map (del_in_event G2) = rest.map (del_in_event g) := by
      apply List.map_congr_left
      intro cid' hcid'
      have hne : cid' ≠ cid := fun he => hnodup.1 (he ▸ hcid')
      have h := inv.conn_of cid' (List.mem_cons_of_mem _ hcid')
      rw [optHolds_iff] at h
      obtain ⟨c', hc', h'⟩ := h
      rw [optHolds_iff] at h'
      obtain ⟨sp', hsp', _, _⟩ := h'
      unfold del_in_event
      rw [hG2c, smGet_smRemove_other _ _ _ hne, hc']
      simp only [Option.some_bind, Option.map_some', Option.getD_some]
      by_cases hq : c'.end_port = c.end_port
      · rw [hq] at hsp'
        have hspeq : sp' = sp := by
          rw [hsp] at hsp'
          exact (Option.some.inj hsp').symm
        subst hspeq
        rw [hq, hG2o, smGet_smSet_self hsp, hsp]
        simp
      · rw [hG2o, smGet_smSet_other _ _ _ _ hq]
    have hev : del_in_event g cid
        = HookEvent.inputConnectionRemoved sp.node c.end_port cid := by
      simp [del_in_event, hc, hsp]
    refine ⟨g', ?_, ?_, ?_, ?_, ?_, ?_, ?_, ?_, ?_⟩
    · rw [hstep, hrun, hevents, List.map_cons, hev]
      simp
    · rw [hip, hG2ip]
    · rw [hnd, hG2nd]
    · rw [hns, hG2ns]
    · rw [hnc, hG2nc]
    · rw [hni, hG2ni]
    · rw [hno, hG2no]
    · intro cid2
      rw [hconn cid2, hG2c]
      by_cases hr : cid2 ∈ rest
      · simp [hr, List.mem_cons_of_mem _ hr]
      · by_cases hq2 : cid2 = cid
        · subst hq2
          simp [hr, smGet_smRemove_self]
        · have hnotin : cid2 ∉ cid :: rest := by simp [hq2, hr]
          simp [hr, hnotin, smGet_smRemove_other _ _ _ hq2]
    · intro q
      rw [hout q, hG2o]
      by_cases hq2 : q = c.end_port
      · rw [hq2, smGet_smSet_self hsp, hsp]
        have hfil : List.filter (fun c => !decide (c ∈ rest))
              (removeFirst sp.incoming_connections cid)
            = List.filter (fun c => !decide (c = cid) && !decide (c ∈ rest))
                sp.incoming_connections := by
          rw [removeFirst_eq_filter (inv.in_nodup _ hspmem) cid, List.filter_filter]
          apply List.filter_congr
          intro x _
          by_cases hx : x = cid <;> by_cases hxr : x ∈ rest <;> simp [hx, hxr]
        simp [hfil]
      · rw [smGet_smSet_other _ _ _ _ hq2]
        cases hgq : smGet g.input_ports q with
        | none => simp
        | some p =>
          have hfil : List.filter (fun c => !decide (c ∈ rest)) p.incoming_connections
              = List.filter (fun c => !decide (c = cid) && !decide (c ∈ rest))
                  p.incoming_connections := by
            apply List.filter_congr
            intro x hx
            by_cases hxc : x = cid
            · subst hxc
              have h2 := inv.in_end _ (smGet_mem hgq) x hx hmem
              rw [optHolds_iff] at h2
              obtain ⟨c', hc', hstart⟩ := h2
              rw [hc] at hc'
              have hcc : c = c' := Option.some.inj hc'
              subst hcc
              exact absurd hstart.symm hq2
            · by_cases hxr : x ∈ rest <;> simp [hxc, hxr]
          simp [hfil]

theorem delete_output_port_spec {T V : Type} (g : Graph T V) (r : OutputRef)
    (pid : OutputPortId) (p : Port T V) (hwf : WF g)
    (hres : resolveOutput g r = some pid)
    (hp : smGet g.output_ports pid = some p) :
    ∃ g', delete_output_port g r
        = .ok g' (p.outgoing_connections.map (del_in_event g)) ∧
      g'.node_data = g.node_data ∧ g'.nodes = g.nodes ∧
      g'.next_connection = g.next_connection ∧ g'.next_input = g.next_input ∧
      g'.next_output = g.next_output ∧
      (∀ q, smGet g'.output_ports q
        = if q = pid then none else smGet g.output_ports q) ∧
      (∀ cid, smGet g'.connections cid =
        if cid ∈ p.outgoing_connections then none else smGet g.connections cid) ∧
      (∀ q, smGet g'.input_ports q = (smGet g.input_ports q).map fun P =>
        { P with incoming_connections :=
            P.incoming_connections.filter fun c => c ∉ p.outgoing_connections }) := by
  have hpmem : (pid, p) ∈ g.output_ports := smGet_mem hp
  obtain ⟨hconns, hnodup, _hnd, _hnn⟩ := hwf.output_ports_ok _ hpmem
  obtain ⟨G0, hG0ip, hG0c, hG0o, hG0nd, hG0ns, hG0nc, hG0ni, hG0no, hrun⟩ :
      ∃ G0 : Graph T V,
        G0.output_ports = smRemove g.output_ports pid ∧
        G0.connections = g.connections ∧ G0.input_ports = g.input_ports ∧
        G0.node_data = g.node_data ∧ G0.nodes = g.nodes ∧
        G0.next_connection = g.next_connection ∧ G0.next_input = g.next_input ∧
        G0.next_output = g.next_output ∧
        delete_output_port g r = delete_output_loop p.outgoing_connections G0 [] :=
    ⟨{ g with output_ports := smRemove g.output_ports pid },
      rfl, rfl, rfl, rfl, rfl, rfl, rfl, rfl, by
        simp only [delete_output_port, hres, hp]⟩
  have hinv : DelInvOut G0 p.outgoing_connections := by
    refine ⟨hnodup, ?_, ?_, ?_, ?_⟩
    · intro cid hcid
      have h := hconns cid hcid
      rw [optHolds_iff] at h
      obtain ⟨c, hc, _⟩ := h
      have h2 := hwf.conn_end _ (smGet_mem hc)
      rw [optHolds_iff] at h2
      obtain ⟨sp, hsp, hmem2, hnode2⟩ := h2
      rw [optHolds_iff]
      refine ⟨c, by rw [hG0c]; exact hc, ?_⟩
      rw [optHolds_iff]
      exact ⟨sp, by rw [hG0o]; exact hsp, hmem2, by rw [hG0ns]; exact hnode2⟩
    · intro e he
      rw [hG0o] at he
      exact (hwf.input_ports_ok e he).2.1
    · intro e he cid hcid _
      rw [hG0o] at he
      have h := (hwf.input_ports_ok e he).1 cid hcid
      rw [optHolds_iff] at h
      obtain ⟨c, hc, hstart⟩ := h
      rw [optHolds_iff]
      exact ⟨c, by rw [hG0c]; exact hc, hstart⟩
    · rw [hG0o]
      exact hwf.input_keys_nodup
  obtain ⟨g', hloop, hip, hnd, hns, hnc, hni, hno, hconn, hout⟩ :=
    delete_output_loop_spec p.outgoing_connections G0 [] hinv
  have hevent : del_in_event G0 = del_in_event g := by
    funext cid
    unfold del_in_event
    rw [hG0c, hG0o]
  refine ⟨g', ?_, ?_, ?_, ?_, ?_, ?_, ?_, ?_, ?_⟩
  · rw [hrun, hloop, hevent]
    simp
  · rw [hnd, hG0nd]
  · rw [hns, hG0ns]
  · rw [hnc, hG0nc]
  · rw [hni, hG0ni]
  · rw [hno, hG0no]
  · intro q
    rw [hip, hG0ip]
    by_cases hq : q = pid
    · subst hq
      simp [smGet_smRemove_self]
    · simp [hq, smGet_smRemove_other _ _ _ hq]
  · intro cid
    rw [hconn cid, hG0c]
  · intro q
    rw [hout q, hG0o]


/-! ### C5: cascading delete of connections -/

theorem countP_mem_comm {l1 l2 : List Nat} (h1 : l1.Nodup) (h2 : l2.Nodup) :
    l1.countP (fun c => c ∈ l2) = l2.countP (fun c => c ∈ l1) := by
  rw [List.countP_eq_length_filter, List.countP_eq_length_filter]
  apply List.Perm.length_eq
  apply List.perm_of_nodup_nodup_toFinset_eq (h1.filter _) (h2.filter _)
  ext x
  simp only [List.mem_toFinset, List.mem_filter, decide_eq_true_eq]
  exact ⟨fun h => ⟨h.2, h.1⟩, fun h => ⟨h.2, h.1⟩⟩

theorem length_filter_add_countP {q p : Nat → Bool} (h : ∀ a, q a = !p a) :
    ∀ {l : List Nat}, (l.filter q).length + l.countP p = l.length := by
  intro l
  induction l with
  | nil => simp
  | cons a rest ih =>
    cases hp : p a <;>
      simp only [List.filter_cons, List.countP_cons, hp, h a, Bool.not_false,
        Bool.not_true, if_true, if_false, Bool.false_eq_true, List.length_cons] <;>
      omega

theorem del_out_event_injective {T V : Type} (g : Graph T V) :
    Function.Injective (del_out_event g) := by
  intro a b h
  unfold del_out_event at h
  injection h with h1 h2 h3

theorem del_in_event_injective {T V : Type} (g : Graph T V) :
    Function.Injective (del_in_event g) := by
  intro a b h
  unfold del_in_event at h
  injection h with h1 h2 h3

/-- C5: for every port reference of a well-formed graph, port deletion
returns the absent value exactly when the reference does not resolve to a
port present in the arena, and otherwise succeeds; after a successful
`delete_input_port` of a port with N attached connections, none of those
connection ids is retrievable from the connection arena or from any output
port's outgoing list, each counterpart output port's outgoing list shrinks by
exactly one per removed connection attached to it, and the counterpart
node's connection-removed hook is fired exactly once per removed connection;
symmetrically for `delete_output_port`. -/
theorem delete_port_cascade {T V : Type} (g : Graph T V) (hwf : WF g) :
    (∀ r : InputRef,
      (delete_input_port g r = DeleteResult.notFound ↔
        ¬∃ pid, resolveInput g r = some pid ∧
          (smGet g.input_ports pid).isSome = true) ∧
      (∀ pid p, resolveInput g r = some pid → smGet g.input_ports pid = some p →
        ∃ g', delete_input_port g r
            = .ok g' (p.incoming_connections.map (del_out_event g)) ∧
          (∀ cid ∈ p.incoming_connections, smGet g'.connections cid = none) ∧
          (∀ cid ∈ p.incoming_connections, ∀ q P',
            smGet g'.output_ports q = some P' → cid ∉ P'.outgoing_connections) ∧
          (∀ q P, smGet g.output_ports q = some P →
            ∃ P', smGet g'.output_ports q = some P' ∧
              P'.outgoing_connections = P.outgoing_connections.filter
                (fun c => c ∉ p.incoming_connections) ∧
              P'.outgoing_connections.length
                + p.incoming_connections.countP
                    (fun c => c ∈ P.outgoing_connections)
                = P.outgoing_connections.length) ∧
          (∀ cid ∈ p.incoming_connections,
            (p.incoming_connections.map (del_out_event g)).count
              (del_out_event g cid) = 1))) ∧
    (∀ r : OutputRef,
      (delete_output_port g r = DeleteResult.notFound ↔
        ¬∃ pid, resolveOutput g r = some pid ∧
          (smGet g.output_ports pid).isSome = true) ∧
      (∀ pid p, resolveOutput g r = some pid → smGet g.output_ports pid = some p →
        ∃ g', delete_output_port g r
            = .ok g' (p.outgoing_connections.map (del_in_event g)) ∧
          (∀ cid ∈ p.outgoing_connections, smGet g'.connections cid = none) ∧
          (∀ cid ∈ p.outgoing_connections, ∀ q P',
            smGet g'.input_ports q = some P' → cid ∉ P'.incoming_connections) ∧
          (∀ q P, smGet g.input_ports q = some P →
            ∃ P', smGet g'.input_ports q = some P' ∧
              P'.incoming_connections = P.incoming_connections.filter
                (fun c => c ∉ p.outgoing_connections) ∧
              P'.incoming_connections.length
                + p.outgoing_connections.countP
                    (fun c => c ∈ P.incoming_connections)
                = P.incoming_connections.length) ∧
          (∀ cid ∈ p.outgoing_connections,
            (p.outgoing_connections.map (del_in_event g)).count
              (del_in_event g cid) = 1))) := by
  constructor
  · intro r
    constructor
    · cases hres : resolveInput g r with
      | none =>
        have hlhs : delete_input_port g r = DeleteResult.notFound := by
          simp only [delete_input_port, hres]
        rw [hlhs]
        constructor
        · rintro - ⟨pid, hpid, _⟩
          exact Option.noConfusion hpid
        · intro _
          rfl
      | some pid =>
        cases hp : smGet g.input_ports pid with
        | none =>
          have hlhs : delete_input_port g r = DeleteResult.notFound := by
            simp only [delete_input_port, hres, hp]
          rw [hlhs]
          constructor
          · rintro - ⟨pid', hpid', hsome⟩
            have hpe : pid' = pid := (Option.some.inj hpid').symm
            subst hpe
            rw [hp] at hsome
            simp at hsome
          · intro _
            rfl
        | some p =>
          obtain ⟨g', hok, _⟩ := delete_input_port_spec g r pid p hwf hres hp
          rw [hok]
          constructor
          · intro h
            exact DeleteResult.noConfusion h
          · intro h
            exact (h ⟨pid, rfl, by simp [hp]⟩).elim
    · intro pid p hres hp
      obtain ⟨g', hok, hnd, hns, hnc, hni, hno, hipq, hconn, hout⟩ :=
        delete_input_port_spec g r pid p hwf hres hp
      have hpnodup : p.incoming_connections.Nodup :=
        (hwf.input_ports_ok _ (smGet_mem hp)).2.1
      refine ⟨g', hok, ?_, ?_, ?_, ?_⟩
      · intro cid hcid
        rw [hconn cid]
        simp [hcid]
      · intro cid hcid q P' hP'
        rw [hout q] at hP'
        cases hgq : smGet g.output_ports q with
        | none => rw [hgq] at hP'; exact Option.noConfusion hP'
        | some P =>
          rw [hgq] at hP'
          have hP'eq := Option.some.inj hP'
          rw [← hP'eq]
          intro hmem
          have hdec := (List.mem_filter.mp hmem).2
          simp only [decide_eq_true_eq] at hdec
          exact hdec hcid
      · intro q P hgq
        have := hout q
        rw [hgq] at this
        refine ⟨_, this, rfl, ?_⟩
        have hPnodup : P.outgoing_connections.Nodup :=
          (hwf.output_ports_ok _ (smGet_mem hgq)).2.1
        have hcomm := countP_mem_comm hpnodup hPnodup
        rw [hcomm]
        exact length_filter_add_countP (fun a => by simp)
      · intro cid hcid
        rw [List.count_map_of_injective _ _ (del_out_event_injective g)]
        exact List.count_eq_one_of_mem hpnodup hcid
  · intro r
    constructor
    · cases hres : resolveOutput g r with
      | none =>
        have hlhs : delete_output_port g r = DeleteResult.notFound := by
          simp only [delete_output_port, hres]
        rw [hlhs]
        constructor
        · rintro - ⟨pid, hpid, _⟩
          exact Option.noConfusion hpid
        · intro _
          rfl
      | some pid =>
        cases hp : smGet g.output_ports pid with
        | none =>
          have hlhs : delete_output_port g r = DeleteResult.notFound := by
            simp only [delete_output_port, hres, hp]
          rw [hlhs]
          constructor
          · rintro - ⟨pid', hpid', hsome⟩
            have hpe : pid' = pid := (Option.some.inj hpid').symm
            subst hpe
            rw [hp] at hsome
            simp at hsome
          · intro _
            rfl
        | some p =>
          obtain ⟨g', hok, _⟩ := delete_output_port_spec g r pid p hwf hres hp
          rw [hok]
          constructor
          · intro h
            exact DeleteResult.noConfusion h
          · intro h
            exact (h ⟨pid, rfl, by simp [hp]⟩).elim
    · intro pid p hres hp
      obtain ⟨g', hok, hnd, hns, hnc, hni, hno, hipq, hconn, hout⟩ :=
        delete_output_port_spec g r pid p hwf hres hp
      have hpnodup : p.outgoing_connections.Nodup :=
        (hwf.output_ports_ok _ (smGet_mem hp)).2.1
      refine ⟨g', hok, ?_, ?_, ?_, ?_⟩
      · intro cid hcid
        rw [hconn cid]
        simp [hcid]
      · intro cid hcid q P' hP'
        rw [hout q] at hP'
        cases hgq : smGet g.input_ports q with
        | none => rw [hgq] at hP'; exact Option.noConfusion hP'
        | some P =>
          rw [hgq] at hP'
          have hP'eq := Option.some.inj hP'
          rw [← hP'eq]
          intro hmem
          have hdec := (List.mem_filter.mp hmem).2
          simp only [decide_eq_true_eq] at hdec
          exact hdec hcid
      · intro q P hgq
        have := hout q
        rw [hgq] at this
        refine ⟨_, this, rfl, ?_⟩
        have hPnodup : P.incoming_connections.Nodup :=
          (hwf.input_ports_ok _ (smGet_mem hgq)).2.1
        have hcomm := countP_mem_comm hpnodup hPnodup
        rw [hcomm]
        exact length_filter_add_countP (fun a => by simp)
      · intro cid hcid
        rw [List.count_map_of_injective _ _ (del_in_event_injective g)]
        exact List.count_eq_one_of_mem hpnodup hcid

/-- Witness for C5: deleting input port "y" of node 2 in the chain graph
(port id 21, one attached connection 101 from output port 11). -/
theorem delete_port_cascade_witness :
    ∃ g', delete_input_port gChain (InputRef.name 2 "y")
        = .ok g' ((⟨2, "y", 0, none, [101], []⟩ :
            Port Nat Nat).incoming_connections.map (del_out_event gChain)) ∧
      (∀ cid ∈ (⟨2, "y", 0, none, [101], []⟩ :
          Port Nat Nat).incoming_connections, smGet g'.connections cid = none) ∧
      (∀ cid ∈ (⟨2, "y", 0, none, [101], []⟩ :
          Port Nat Nat).incoming_connections, ∀ q P',
        smGet g'.output_ports q = some P' → cid ∉ P'.outgoing_connections) ∧
      (∀ q P, smGet gChain.output_ports q = some P →
        ∃ P', smGet g'.output_ports q = some P' ∧
          P'.outgoing_connections = P.outgoing_connections.filter
            (fun c => c ∉ (⟨2, "y", 0, none, [101], []⟩ :
              Port Nat Nat).incoming_connections) ∧
          P'.outgoing_connections.length
            + (⟨2, "y", 0, none, [101], []⟩ :
                Port Nat Nat).incoming_connections.countP
                (fun c => c ∈ P.outgoing_connections)
            = P.outgoing_connections.length) ∧
      (∀ cid ∈ (⟨2, "y", 0, none, [101], []⟩ :
          Port Nat Nat).incoming_connections,
        ((⟨2, "y", 0, none, [101], []⟩ :
            Port Nat Nat).incoming_connections.map (del_out_event gChain)).count
          (del_out_event gChain cid) = 1) :=
  ((delete_port_cascade gChain gChain_wf).1 (InputRef.name 2 "y")).2 21
    ⟨2, "y", 0, none, [101], []⟩ (by decide) (by decide)

/-! ### C6 and C10: what port deletion does and does not invalidate -/

/-- C6: deleting an input port shifts no other port's ordinal position —
after a successful `delete_input_port` of port `pid`, ordinal and name
resolution on every node returns exactly the same port id as before, every
other port id still resolves to the same arena entry, and only the removed
port itself is invalidated: any reference that resolved to `pid` now yields
"not found" at the arena-lookup (`get_input_port_info`) level. -/
theorem delete_input_port_ordinal_stability {T V : Type} (g : Graph T V)
    (r : InputRef) (pid : InputPortId) (p : Port T V) (hwf : WF g)
    (hres : resolveInput g r = some pid)
    (hp : smGet g.input_ports pid = some p) :
    ∃ g' evs, delete_input_port g r = .ok g' evs ∧
      (∀ n i, get_input_port_at g' n i = get_input_port_at g n i) ∧
      (∀ n s, get_input_port g' n s = get_input_port g n s) ∧
      (∀ r' : InputRef, resolveInput g' r' = resolveInput g r') ∧
      (∀ q, q ≠ pid → smGet g'.input_ports q = smGet g.input_ports q) ∧
      (∀ (r' : InputRef) (pid' : InputPortId),
        resolveInput g r' = some pid' → pid' ≠ pid →
        get_input_port_info g' r' = get_input_port_info g r') ∧
      (∀ r' : InputRef, resolveInput g r' = some pid →
        get_input_port_info g' r' = none) := by
  obtain ⟨g', hok, hnd, _hns, _hnc, _hni, _hno, hipq, _hconn, _hout⟩ :=
    delete_input_port_spec g r pid p hwf hres hp
  have hat : ∀ n i, get_input_port_at g' n i = get_input_port_at g n i := by
    intro n i
    unfold get_input_port_at
    rw [hnd]
  have hname : ∀ n s, get_input_port g' n s = get_input_port g n s := by
    intro n s
    unfold get_input_port
    rw [hnd]
  have hresolve : ∀ r' : InputRef, resolveInput g' r' = resolveInput g r' := by
    intro r'
    cases r' with
    | id q => rfl
    | index n i => exact hat n i
    | name n s => exact hname n s
  refine ⟨g', _, hok, hat, hname, hresolve, ?_, ?_, ?_⟩
  · intro q hq
    rw [hipq q]
    simp [hq]
  · intro r' pid' hres' hne
    unfold get_input_port_info
    rw [hresolve r', hres']
    simp only [Option.some_bind]
    rw [hipq pid']
    simp [hne]
  · intro r' hres'
    unfold get_input_port_info
    rw [hresolve r', hres']
    simp only [Option.some_bind]
    rw [hipq pid]
    simp

/-- Witness for C6 at the chain graph, deleting input "y" of node 2. -/
theorem delete_input_port_ordinal_stability_witness :
    ∃ g' evs, delete_input_port gChain (InputRef.name 2 "y") = .ok g' evs ∧
      (∀ n i, get_input_port_at g' n i = get_input_port_at gChain n i) ∧
      (∀ n s, get_input_port g' n s = get_input_port gChain n s) ∧
      (∀ r' : InputRef, resolveInput g' r' = resolveInput gChain r') ∧
      (∀ q, q ≠ 21 → smGet g'.input_ports q = smGet gChain.input_ports q) ∧
      (∀ (r' : InputRef) (pid' : InputPortId),
        resolveInput gChain r' = some pid' → pid' ≠ 21 →
        get_input_port_info g' r' = get_input_port_info gChain r') ∧
      (∀ r' : InputRef, resolveInput gChain r' = some 21 →
        get_input_port_info g' r' = none) :=
  delete_input_port_ordinal_stability gChain (InputRef.name 2 "y") 21
    ⟨2, "y", 0, none, [101], []⟩ gChain_wf (by decide) (by decide)

/-- C10 (implicit): `delete_input_port` removes the port from the arena but
leaves the `(name, id)` entry in the owning node's ordered input list — every
node's `node_data` record is untouched, so `get_input_port` and
`get_input_port_at` still return the deleted port's id, while
`get_input_port_info` on that id returns `none`. -/
theorem delete_input_port_dangling_entry {T V : Type} (g : Graph T V)
    (r : InputRef) (pid : InputPortId) (p : Port T V) (hwf : WF g)
    (hres : resolveInput g r = some pid)
    (hp : smGet g.input_ports pid = some p) :
    ∃ g' evs, delete_input_port g r = .ok g' evs ∧
      g'.node_data = g.node_data ∧
      (∀ n nd, smGet g.node_data n = some nd → smGet g'.node_data n = some nd) ∧
      (∀ n nm, get_input_port g n nm = some pid →
        get_input_port g' n nm = some pid) ∧
      (∀ n i, get_input_port_at g n i = some pid →
        get_input_port_at g' n i = some pid) ∧
      get_input_port_info g' (InputRef.id pid) = none ∧
      smGet g'.input_ports pid = none := by
  obtain ⟨g', hok, hnd, _hns, _hnc, _hni, _hno, hipq, _hconn, _hout⟩ :=
    delete_input_port_spec g r pid p hwf hres hp
  have hgone : smGet g'.input_ports pid = none := by
    rw [hipq pid]
    simp
  refine ⟨g', _, hok, hnd, ?_, ?_, ?_, ?_, hgone⟩
  · intro n nd h
    rw [hnd]
    exact h
  · intro n nm h
    unfold get_input_port at h ⊢
    rw [hnd]
    exact h
  · intro n i h
    unfold get_input_port_at at h ⊢
    rw [hnd]
    exact h
  · show (resolveInput g' (InputRef.id pid)).bind (smGet g'.input_ports) = none
    simp only [resolveInput, Option.some_bind]
    exact hgone

/-- Witness for C10 at the chain graph: after deleting input "y" of node 2
(port id 21), node 2's input list still holds `("y", 21)`, name and ordinal
lookup still return 21, and the port info is gone. -/
theorem delete_input_port_dangling_entry_witness :
    ∃ g' evs, delete_input_port gChain (InputRef.name 2 "y") = .ok g' evs ∧
      g'.node_data = gChain.node_data ∧
      (∀ n nd, smGet gChain.node_data n = some nd →
        smGet g'.node_data n = some nd) ∧
      (∀ n nm, get_input_port gChain n nm = some 21 →
        get_input_port g' n nm = some 21) ∧
      (∀ n i, get_input_port_at gChain n i = some 21 →
        get_input_port_at g' n i = some 21) ∧
      get_input_port_info g' (InputRef.id 21) = none ∧
      smGet g'.input_ports 21 = none :=
  delete_input_port_dangling_entry gChain (InputRef.name 2 "y") 21
    ⟨2, "y", 0, none, [101], []⟩ gChain_wf (by decide) (by decide)

/-! ### C2: `connect` mutates the output side before validating -/

/-- C2: for every pair of resolvable references whose ports violate a
`connect` precondition (same owning node, or non-convertible types), the
operation is fatal, and the state at the panic already has the fresh
connection id appended to the output port's outgoing list, with the output
node's connection-added hook as the only hook fired (the input node's hook
never runs), while the input port's incoming list does not contain the id —
the `ConnectionId` was allocated (stored in the connection arena) but never
linked on the input side. -/
theorem connect_mutates_output_before_validation {T V : Type} (g : Graph T V)
    (conv : T → T → Bool) (sref : OutputRef) (eref : InputRef)
    (sp : OutputPortId) (ep : InputPortId) (s e : Port T V) (hwf : WF g)
    (hs : resolveOutput g sref = some sp) (he : resolveInput g eref = some ep)
    (hsp : smGet g.output_ports sp = some s)
    (hep : smGet g.input_ports ep = some e)
    (hfail : s.node = e.node ∨ conv s.ty e.ty = false) :
    ∃ gf msg, connect g conv sref eref
        = .fatal gf [HookEvent.outputConnectionAdded s.node sp g.next_connection]
            msg ∧
      (∃ s', smGet gf.output_ports sp = some s' ∧
        s'.outgoing_connections
          = s.outgoing_connections ++ [g.next_connection]) ∧
      smGet gf.input_ports ep = some e ∧
      g.next_connection ∉ e.incoming_connections ∧
      smGet gf.connections g.next_connection
        = some ⟨sp, ep⟩ := by
  have hsnode : s.node ∈ g.nodes := (hwf.output_ports_ok _ (smGet_mem hsp)).2.2.2
  have hfresh : g.next_connection ∉ e.incoming_connections := by
    intro hmem
    have h := (hwf.input_ports_ok _ (smGet_mem hep)).1 _ hmem
    rw [optHolds_iff] at h
    obtain ⟨c, hc, _⟩ := h
    have := hwf.conn_fresh _ (smGet_mem hc)
    exact absurd this (lt_irrefl _)
  have hout : ∀ gf : Graph T V,
      gf.output_ports = smSet g.output_ports sp
        { s with outgoing_connections :=
            s.outgoing_connections ++ [g.next_connection] } →
      ∃ s', smGet gf.output_ports sp = some s' ∧
        s'.outgoing_connections = s.outgoing_connections ++ [g.next_connection] := by
    intro gf hgf
    exact ⟨_, by rw [hgf]; exact smGet_smSet_self hsp, rfl⟩
  have hconnq : smGet (g.connections ++ [(g.next_connection,
      (⟨sp, ep⟩ : Connection))]) g.next_connection = some ⟨sp, ep⟩ :=
    smGet_append_right_of_fresh (fun x hx => hwf.conn_fresh x hx) _
  have hhout := hout
    { g with
      connections := g.connections ++ [(g.next_connection, ⟨sp, ep⟩)]
      next_connection := g.next_connection + 1
      output_ports := smSet g.output_ports sp
        { s with outgoing_connections :=
            s.outgoing_connections ++ [g.next_connection] } } rfl
  rcases hfail with hsame | hconv
  · refine ⟨{ g with
      connections := g.connections ++ [(g.next_connection, ⟨sp, ep⟩)]
      next_connection := g.next_connection + 1
      output_ports := smSet g.output_ports sp
        { s with outgoing_connections :=
            s.outgoing_connections ++ [g.next_connection] } },
      "Attempted to create a connection to the same node",
      ?_, hhout, hep, hfresh, hconnq⟩
    simp only [connect, hs, he, hsp, hep, if_pos hsnode, if_pos hsame]
  · by_cases hsame : s.node = e.node
    · refine ⟨{ g with
        connections := g.connections ++ [(g.next_connection, ⟨sp, ep⟩)]
        next_connection := g.next_connection + 1
        output_ports := smSet g.output_ports sp
          { s with outgoing_connections :=
              s.outgoing_connections ++ [g.next_connection] } },
        "Attempted to create a connection to the same node",
        ?_, hhout, hep, hfresh, hconnq⟩
      simp only [connect, hs, he, hsp, hep, if_pos hsnode, if_pos hsame]
    · refine ⟨{ g with
        connections := g.connections ++ [(g.next_connection, ⟨sp, ep⟩)]
        next_connection := g.next_connection + 1
        output_ports := smSet g.output_ports sp
          { s with outgoing_connections :=
              s.outgoing_connections ++ [g.next_connection] } },
        "Attempted to create a connection between two ports of non-convertable types",
        ?_, hhout, hep, hfresh, hconnq⟩
      simp only [connect, hs, he, hsp, hep, if_pos hsnode, if_neg hsame, hconv,
        Bool.false_eq_true, if_false]

/-- Witness for C2: connecting node 1's own output "p" to node 1's own input
"x" in the chain graph is the same-node violation; the fatal state already
carries connection id 102 on output port 11. -/
theorem connect_mutates_output_before_validation_witness :
    ∃ gf msg, connect gChain natConvert (OutputRef.name 1 "p") (InputRef.name 1 "x")
        = .fatal gf [HookEvent.outputConnectionAdded 1 11 gChain.next_connection]
            msg ∧
      (∃ s', smGet gf.output_ports 11 = some s' ∧
        s'.outgoing_connections = [101] ++ [gChain.next_connection]) ∧
      smGet gf.input_ports 20 = some ⟨1, "x", 0, some 5, [100], []⟩ ∧
      gChain.next_connection ∉
        (⟨1, "x", 0, some 5, [100], []⟩ : Port Nat Nat).incoming_connections ∧
      smGet gf.connections gChain.next_connection = some ⟨11, 20⟩ :=
  connect_mutates_output_before_validation gChain natConvert
    (OutputRef.name 1 "p") (InputRef.name 1 "x") 11 20
    ⟨1, "p", 0, none, [], [101]⟩ ⟨1, "x", 0, some 5, [100], []⟩ gChain_wf
    (by decide) (by decide) (by decide) (by decide) (Or.inl rfl)

/-! ### C3 and C8: the walk context's `get` and `get_all` -/

/-- The producing output port of a connection id (total helper; the `getD`
arm is unreachable when the connection exists). -/
def startOf {T V : Type} (g : Graph T V) (cid : ConnectionId) : OutputPortId :=
  ((smGet g.connections cid).map Connection.start_port).getD 0

theorem mapM_eq_map_of_isSome {α : Type} {f : Nat → Option α} {d : Nat → α} :
    ∀ {l : List Nat}, (∀ x ∈ l, f x = some (d x)) →
    l.mapM f = some (l.map d) := by
  intro l
  induction l with
  | nil => intro _; rfl
  | cons x rest ih =>
    intro h
    rw [List.mapM_cons, h x (List.mem_cons_self _ _),
      ih (fun y hy => h y (List.mem_cons_of_mem _ hy))]
    rfl

theorem get_incoming_connections_eq {T V : Type} {g : Graph T V} {r : InputRef}
    {pid : InputPortId} {p : Port T V} (hwf : WF g)
    (hres : resolveInput g r = some pid)
    (hp : smGet g.input_ports pid = some p) :
    get_incoming_connections g r
      = some (p.incoming_connections.map (startOf g)) := by
  unfold get_incoming_connections
  rw [hres]
  simp only [Option.some_bind]
  rw [hp]
  simp only [Option.some_bind]
  apply mapM_eq_map_of_isSome
  intro cid hcid
  have h := (hwf.input_ports_ok _ (smGet_mem hp)).1 cid hcid
  rw [optHolds_iff] at h
  obtain ⟨c, hc, _⟩ := h
  rw [hc]
  unfold startOf
  rw [hc]
  rfl

theorem head_filterMap_of_first {α β : Type} (f : α → Option β) :
    ∀ (l : List α) (i : Nat) (x : α) (v : β),
    l.get? i = some x → f x = some v →
    (∀ j y, j < i → l.get? j = some y → f y = none) →
    (l.filterMap f).head? = some v := by
  intro l
  induction l with
  | nil => intro i x v hx _ _; simp at hx
  | cons a rest ih =>
    intro i x v hx hv hleast
    cases i with
    | zero =>
      have hax : a = x := by simpa using hx
      subst hax
      simp [List.filterMap_cons, hv]
    | succ i =>
      have ha : f a = none := hleast 0 a (Nat.succ_pos i) rfl
      simp only [List.filterMap_cons, ha]
      exact ih i x v (by simpa using hx) hv
        (fun j y hj hy => hleast (j + 1) y (Nat.succ_lt_succ hj) (by simpa using hy))

/-- C3: for every node of the graph and resolvable input reference,
`context_get` returns the first cached value, in incoming-connection-list
order, among the producing output ports of that input's incoming connections
(the value of the least cached index); when no incoming connection has a
cached value it returns the input port's default, and it is fatal when in
that case no default exists. -/
theorem context_get_spec {T V : Type} (g : Graph T V) (cache : OutputCache V)
    (node : NodeId) (ident : InputIdent) (pid : InputPortId) (p : Port T V)
    (hwf : WF g)
    (hres : resolveInput g (ident.combine node) = some pid)
    (hp : smGet g.input_ports pid = some p) :
    (∀ (i : Nat) (cid : ConnectionId) (c : Connection) (v : V),
      p.incoming_connections.get? i = some cid →
      smGet g.connections cid = some c →
      smGet cache c.start_port = some v →
      (∀ (j : Nat) (cid' : ConnectionId) (c' : Connection), j < i →
        p.incoming_connections.get? j = some cid' →
        smGet g.connections cid' = some c' →
        smGet cache c'.start_port = none) →
      context_get g cache node ident = .ok v) ∧
    ((∀ (cid : ConnectionId) (c : Connection), cid ∈ p.incoming_connections →
        smGet g.connections cid = some c → smGet cache c.start_port = none) →
      ((∀ d, p.default = some d → context_get g cache node ident = .ok d) ∧
       (p.default = none → context_get g cache node ident
          = .error "No default value present for disconnected port"))) := by
  have hinc := get_incoming_connections_eq hwf hres hp
  have hconn : ∀ cid ∈ p.incoming_connections, ∃ c,
      smGet g.connections cid = some c := by
    intro cid hcid
    have h := (hwf.input_ports_ok _ (smGet_mem hp)).1 cid hcid
    rw [optHolds_iff] at h
    obtain ⟨c, hc, _⟩ := h
    exact ⟨c, hc⟩
  constructor
  · intro i cid c v hi hc hv hleast
    have hhead : ((p.incoming_connections.map (startOf g)).filterMap
        (smGet cache)).head? = some v := by
      rw [List.filterMap_map]
      apply head_filterMap_of_first _ _ i cid v hi
      · show smGet cache (startOf g cid) = some v
        unfold startOf
        rw [hc]
        exact hv
      · intro j y hj hy
        obtain ⟨c', hc'⟩ := hconn y (List.get?_mem hy)
        show smGet cache (startOf g y) = none
        unfold startOf
        rw [hc']
        exact hleast j y c' hj hy hc'
    simp only [context_get, hinc, hhead]
  · intro hnone
    have hnil : ((p.incoming_connections.map (startOf g)).filterMap
        (smGet cache)) = [] := by
      rw [List.filterMap_map, List.filterMap_eq_nil_iff]
      intro cid hcid
      obtain ⟨c, hc⟩ := hconn cid hcid
      show smGet cache (startOf g cid) = none
      unfold startOf
      rw [hc]
      exact hnone cid c hcid hc
    have hinfo : get_input_port_info g (ident.combine node) = some p := by
      unfold get_input_port_info
      rw [hres]
      simpa using hp
    constructor
    · intro d hd
      simp only [context_get, hinc, hnil, List.head?_nil, hinfo, hd]
    · intro hd
      simp only [context_get, hinc, hnil, List.head?_nil, hinfo, hd]

/-- Witness for C3 at the chain graph: input "x" of node 1 with its single
producer cached returns the cached value 9; with an empty cache it falls
back to the default 5; input "y" of node 2 has no default and an empty cache
makes `get` fatal. -/
theorem context_get_spec_witness :
    context_get gChain [(10, 9)] 1 (InputIdent.name "x") = .ok 9 ∧
    context_get gChain [] 1 (InputIdent.name "x") = .ok 5 ∧
    context_get gChain [] 2 (InputIdent.name "y")
      = .error "No default value present for disconnected port" :=
  ⟨(context_get_spec gChain [(10, 9)] 1 (InputIdent.name "x") 20
      ⟨1, "x", 0, some 5, [100], []⟩ gChain_wf (by decide) (by decide)).1
      0 100 ⟨10, 20⟩ 9 (by decide) (by decide) (by decide)
      (fun j cid' c' hj => by omega),
    ((context_get_spec gChain [] 1 (InputIdent.name "x") 20
      ⟨1, "x", 0, some 5, [100], []⟩ gChain_wf (by decide) (by decide)).2
      (fun cid c _ _ => by simp [smGet])).1 5 (by decide),
    ((context_get_spec gChain [] 2 (InputIdent.name "y") 21
      ⟨2, "y", 0, none, [101], []⟩ gChain_wf (by decide) (by decide)).2
      (fun cid c _ _ => by simp [smGet])).2 (by decide)⟩

/-- Modelled from the spec's words for comparison with the source (`get_all`
"lazily yields every cached value from every incoming connection, in
connection-list order"): walk the producing ports in order, yield the cached
value when present, skip otherwise. -/
def spec_fan_in {V : Type} (cache : OutputCache V) : List OutputPortId → List V
  | [] => []
  | q :: rest =>
    match smGet cache q with
    | some v => v :: spec_fan_in cache rest
    | none => spec_fan_in cache rest

theorem spec_fan_in_eq_filterMap {V : Type} (cache : OutputCache V) :
    ∀ l : List OutputPortId, spec_fan_in cache l = l.filterMap (smGet cache) := by
  intro l
  induction l with
  | nil => rfl
  | cons q rest ih =>
    cases hq : smGet cache q with
    | none => simp [spec_fan_in, List.filterMap_cons, hq, ih]
    | some v => simp [spec_fan_in, List.filterMap_cons, hq, ih]

/-- C8: for every resolvable input of the current node, `context_get_all`
yields exactly the cached values of the producing output ports of the
input's incoming connections, one per cached connection, in
incoming-connection-list order, skipping uncached producers (refinement
against the spec-side collector `spec_fan_in`); in particular in the fan-in
graph with producers that wrote 3 and 4 it yields [3, 4] in connection order
and the caller-computed sum is 7. -/
theorem context_get_all_spec {T V : Type} (g : Graph T V) (cache : OutputCache V)
    (node : NodeId) (ident : InputIdent) (pid : InputPortId) (p : Port T V)
    (hwf : WF g)
    (hres : resolveInput g (ident.combine node) = some pid)
    (hp : smGet g.input_ports pid = some p) :
    context_get_all g cache node ident
      = some (spec_fan_in cache (p.incoming_connections.map (startOf g))) ∧
    context_get_all gFanIn fanCache 2 (InputIdent.name "x") = some [3, 4] ∧
    ((context_get_all gFanIn fanCache 2 (InputIdent.name "x")).getD []).sum = 7 := by
  refine ⟨?_, by decide, by decide⟩
  unfold context_get_all
  rw [get_incoming_connections_eq hwf hres hp]
  rw [spec_fan_in_eq_filterMap]
  rfl

/-- Witness for C8 at the fan-in graph itself: the consumer input "x" of
node 2 with producers cached at 3 and 4. -/
theorem context_get_all_spec_witness :
    context_get_all gFanIn fanCache 2 (InputIdent.name "x")
      = some (spec_fan_in fanCache
          ((⟨2, "x", 0, none, [100, 101], []⟩ :
            Port Nat Nat).incoming_connections.map (startOf gFanIn))) ∧
    context_get_all gFanIn fanCache 2 (InputIdent.name "x") = some [3, 4] ∧
    ((context_get_all gFanIn fanCache 2 (InputIdent.name "x")).getD []).sum = 7 :=
  context_get_all_spec gFanIn fanCache 2 (InputIdent.name "x") 20
    ⟨2, "x", 0, none, [100, 101], []⟩ gFanIn_wf (by decide) (by decide)

/-! ### C1: topological validity of `generate_execution_path` -/

/-- Total dependency list (equal to `get_direct_dependencies` whenever the
latter is `some`, which holds for every node the traversal pops). -/
def depsOf {T V : Type} (g : Graph T V) (n : NodeId) : List NodeId :=
  (get_direct_dependencies g n).getD []

/-- Dependency reachability: `Reaches g a n` means the traversal rooted at
`a` can reach `n` through direct-dependency edges. -/
inductive Reaches {T V : Type} (g : Graph T V) : NodeId → NodeId → Prop where
  | refl (n : NodeId) : Reaches g n n
  | step {a b d : NodeId} : Reaches g a b → d ∈ depsOf g b → Reaches g a d

theorem gploop_mono {T V : Type} {g : Graph T V} :
    ∀ {fuel : Nat} {stack : List NodeId} {prio : Nat}
      {buf buf' : List (NodeId × Nat)},
    generate_path_loop g fuel stack prio buf = some buf' →
    ∀ n v, smGet buf n = some v → ∃ v', smGet buf' n = some v' ∧ v ≤ v' := by
  intro fuel
  induction fuel with
  | zero => intro stack prio buf buf' h; exact absurd h (by simp [generate_path_loop])
  | succ fuel ih =>
    intro stack prio buf buf' h n v hv
    cases stack with
    | nil =>
      simp only [generate_path_loop] at h
      have hbuf : buf = buf' := Option.some.inj h
      exact ⟨v, hbuf ▸ hv, le_refl v⟩
    | cons top rest =>
      simp only [generate_path_loop] at h
      cases hdeps : get_direct_dependencies g top with
      | none => rw [hdeps] at h; simp at h
      | some deps =>
        rw [hdeps] at h
        simp only [Option.some_bind] at h
        by_cases hn : n = top
        · subst hn
          have hup : smGet (smUpsert buf n (max ((smGet buf n).getD 0) prio)) n
              = some (max ((smGet buf n).getD 0) prio) := smGet_smUpsert_self _ _ _
          obtain ⟨v', hv', hle⟩ := ih h n _ hup
          refine ⟨v', hv', ?_⟩
          rw [hv] at hle
          simp only [Option.getD_some] at hle
          exact le_trans (le_max_left _ _) hle
        · have hup : smGet (smUpsert buf top
              (max ((smGet buf top).getD 0) prio)) n = some v := by
            rw [smGet_smUpsert_other _ _ _ _ hn]
            exact hv
          exact ih h n v hup

theorem gploop_stack {T V : Type} {g : Graph T V} :
    ∀ {fuel : Nat} {stack : List NodeId} {prio : Nat}
      {buf buf' : List (NodeId × Nat)},
    generate_path_loop g fuel stack prio buf = some buf' →
    ∀ n ∈ stack, ∃ v', smGet buf' n = some v' ∧ prio ≤ v' := by
  intro fuel
  induction fuel with
  | zero => intro stack prio buf buf' h; exact absurd h (by simp [generate_path_loop])
  | succ fuel ih =>
    intro stack prio buf buf' h n hn
    cases stack with
    | nil => simp at hn
    | cons top rest =>
      simp only [generate_path_loop] at h
      cases hdeps : get_direct_dependencies g top with
      | none => rw [hdeps] at h; simp at h
      | some deps =>
        rw [hdeps] at h
        simp only [Option.some_bind] at h
        rcases List.mem_cons.mp hn with hcase | hcase
        · subst hcase
          have hup : smGet (smUpsert buf n (max ((smGet buf n).getD 0) prio)) n
              = some (max ((smGet buf n).getD 0) prio) := smGet_smUpsert_self _ _ _
          obtain ⟨v', hv', hle⟩ := gploop_mono h n _ hup
          exact ⟨v', hv', le_trans (le_max_right _ _) hle⟩
        · obtain ⟨v', hv', hle⟩ := ih h n
            (List.mem_append_right _ hcase)
          exact ⟨v', hv', le_trans (Nat.le_succ _) hle⟩

theorem gploop_deps {T V : Type} {g : Graph T V} :
    ∀ {fuel : Nat} {stack : List NodeId} {prio : Nat}
      {buf buf' : List (NodeId × Nat)},
    generate_path_loop g fuel stack prio buf = some buf' →
    ∀ n v, smGet buf' n = some v →
      smGet buf n = some v ∨
      (∀ d ∈ depsOf g n, ∃ w, smGet buf' d = some w ∧ v < w) := by
  intro fuel
  induction fuel with
  | zero => intro stack prio buf buf' h; exact absurd h (by simp [generate_path_loop])
  | succ fuel ih =>
    intro stack prio buf buf' h n v hv
    cases stack with
    | nil =>
      simp only [generate_path_loop] at h
      have hbuf : buf = buf' := Option.some.inj h
      exact Or.inl (hbuf ▸ hv)
    | cons top rest =>
      simp only [generate_path_loop] at h
      cases hdeps : get_direct_dependencies g top with
      | none => rw [hdeps] at h; simp at h
      | some deps =>
        rw [hdeps] at h
        simp only [Option.some_bind] at h
        rcases ih h n v hv with hcase | hcase
        · -- the entry came from the buffer after this pop
          by_cases hn : n = top
          · subst hn
            rw [smGet_smUpsert_self] at hcase
            have hveq : v = max ((smGet buf n).getD 0) prio :=
              (Option.some.inj hcase).symm
            by_cases hprev : (smGet buf n).getD 0 ≤ prio
            · -- this pop set the value: the dependencies, pushed onto the
              -- stack, all end strictly later
              right
              intro d hd
              have hdstack : d ∈ deps.reverse ++ rest := by
                apply List.mem_append_left
                rw [List.mem_reverse]
                have : depsOf g n = deps := by
                  unfold depsOf
                  rw [hdeps]
                  rfl
                exact this ▸ hd
              obtain ⟨w, hw, hle⟩ := gploop_stack h d hdstack
              refine ⟨w, hw, ?_⟩
              rw [hveq]
              omega
            · -- the pop left the previous value in place
              left
              push_neg at hprev
              cases hbuf : smGet buf n with
              | none => rw [hbuf] at hprev; simp at hprev
              | some v0 =>
                rw [hbuf] at hprev hveq
                simp only [Option.getD_some] at hprev hveq
                rw [hveq]
                rw [max_eq_left (le_of_lt hprev)]
          · left
            rw [smGet_smUpsert_other _ _ _ _ hn] at hcase
            exact hcase
        · exact Or.inr hcase

theorem gploop_reach {T V : Type} {g : Graph T V} (R : NodeId → Prop)
    (hclosed : ∀ n, R n → ∀ d ∈ depsOf g n, R d) :
    ∀ {fuel : Nat} {stack : List NodeId} {prio : Nat}
      {buf buf' : List (NodeId × Nat)},
    generate_path_loop g fuel stack prio buf = some buf' →
    (∀ n ∈ stack, R n) → (∀ n v, smGet buf n = some v → R n) →
    ∀ n v, smGet buf' n = some v → R n := by
  intro fuel
  induction fuel with
  | zero => intro stack prio buf buf' h; exact absurd h (by simp [generate_path_loop])
  | succ fuel ih =>
    intro stack prio buf buf' h hstack hbuf n v hv
    cases stack with
    | nil =>
      simp only [generate_path_loop] at h
      have heq : buf = buf' := Option.some.inj h
      exact hbuf n v (heq ▸ hv)
    | cons top rest =>
      simp only [generate_path_loop] at h
      cases hdeps : get_direct_dependencies g top with
      | none => rw [hdeps] at h; simp at h
      | some deps =>
        rw [hdeps] at h
        simp only [Option.some_bind] at h
        have htop : R top := hstack top (List.mem_cons_self _ _)
        have hdeps2 : depsOf g top = deps := by
          unfold depsOf
          rw [hdeps]
          rfl
        refine ih h ?_ ?_ n v hv
        · intro m hm
          rcases List.mem_append.mp hm with hm | hm
          · exact hclosed top htop m (hdeps2 ▸ List.mem_reverse.mp hm)
          · exact hstack m (List.mem_cons_of_mem _ hm)
        · intro m w hw
          by_cases hm : m = top
          · exact hm ▸ htop
          · rw [smGet_smUpsert_other _ _ _ _ hm] at hw
            exact hbuf m w hw

theorem gploop_depsSome {T V : Type} {g : Graph T V} :
    ∀ {fuel : Nat} {stack : List NodeId} {prio : Nat}
      {buf buf' : List (NodeId × Nat)},
    generate_path_loop g fuel stack prio buf = some buf' →
    ∀ n, (smGet buf' n).isSome = true →
      (smGet buf n).isSome = true ∨
        (get_direct_dependencies g n).isSome = true := by
  intro fuel
  induction fuel with
  | zero => intro stack prio buf buf' h; exact absurd h (by simp [generate_path_loop])
  | succ fuel ih =>
    intro stack prio buf buf' h n hv
    cases stack with
    | nil =>
      simp only [generate_path_loop] at h
      have heq : buf = buf' := Option.some.inj h
      exact Or.inl (heq ▸ hv)
    | cons top rest =>
      simp only [generate_path_loop] at h
      cases hdeps : get_direct_dependencies g top with
      | none => rw [hdeps] at h; simp at h
      | some deps =>
        rw [hdeps] at h
        simp only [Option.some_bind] at h
        rcases ih h n hv with hcase | hcase
        · by_cases hn : n = top
          · subst hn
            right
            simp [hdeps]
          · rw [smGet_smUpsert_other _ _ _ _ hn] at hcase
            exact Or.inl hcase
        · exact Or.inr hcase

theorem gploop_nodup {T V : Type} {g : Graph T V} :
    ∀ {fuel : Nat} {stack : List NodeId} {prio : Nat}
      {buf buf' : List (NodeId × Nat)},
    generate_path_loop g fuel stack prio buf = some buf' →
    (smKeys buf).Nodup → (smKeys buf').Nodup := by
  intro fuel
  induction fuel with
  | zero => intro stack prio buf buf' h; exact absurd h (by simp [generate_path_loop])
  | succ fuel ih =>
    intro stack prio buf buf' h hnd
    cases stack with
    | nil =>
      simp only [generate_path_loop] at h
      exact (Option.some.inj h) ▸ hnd
    | cons top rest =>
      simp only [generate_path_loop] at h
      cases hdeps : get_direct_dependencies g top with
      | none => rw [hdeps] at h; simp at h
      | some deps =>
        rw [hdeps] at h
        simp only [Option.bind_eq_bind, Option.some_bind] at h
        exact ih h (smKeys_smUpsert_nodup hnd)

theorem gpfold_mono {T V : Type} {g : Graph T V} {fuel : Nat} :
    ∀ {l : List NodeId} {buf buf' : List (NodeId × Nat)},
    l.foldlM (fun buffer e => generate_path_loop g fuel [e] 0 buffer) buf
      = some buf' →
    ∀ n v, smGet buf n = some v → ∃ v', smGet buf' n = some v' ∧ v ≤ v' := by
  intro l
  induction l with
  | nil =>
    intro buf buf' h n v hv
    simp only [List.foldlM_nil] at h
    exact ⟨v, (Option.some.inj h) ▸ hv, le_refl v⟩
  | cons e rest ih =>
    intro buf buf' h n v hv
    simp only [List.foldlM_cons] at h
    cases hstep : generate_path_loop g fuel [e] 0 buf with
    | none => rw [hstep] at h; simp at h
    | some b1 =>
      rw [hstep] at h
      simp only [Option.bind_eq_bind, Option.some_bind] at h
      obtain ⟨v1, hv1, hle1⟩ := gploop_mono hstep n v hv
      obtain ⟨v', hv', hle2⟩ := ih h n v1 hv1
      exact ⟨v', hv', le_trans hle1 hle2⟩

theorem gpfold_exits {T V : Type} {g : Graph T V} {fuel : Nat} :
    ∀ {l : List NodeId} {buf buf' : List (NodeId × Nat)},
    l.foldlM (fun buffer e => generate_path_loop g fuel [e] 0 buffer) buf
      = some buf' →
    ∀ e ∈ l, (smGet buf' e).isSome = true := by
  intro l
  induction l with
  | nil => intro buf buf' _ e he; simp at he
  | cons e0 rest ih =>
    intro buf buf' h e he
    simp only [List.foldlM_cons] at h
    cases hstep : generate_path_loop g fuel [e0] 0 buf with
    | none => rw [hstep] at h; simp at h
    | some b1 =>
      rw [hstep] at h
      simp only [Option.bind_eq_bind, Option.some_bind] at h
      rcases List.mem_cons.mp he with hcase | hcase
      · subst hcase
        obtain ⟨v1, hv1, _⟩ := gploop_stack hstep e (List.mem_cons_self _ _)
        obtain ⟨v', hv', _⟩ := gpfold_mono h e v1 hv1
        simp [hv']
      · exact ih h e hcase

theorem gpfold_Q {T V : Type} {g : Graph T V} {fuel : Nat} :
    ∀ {l : List NodeId} {buf buf' : List (NodeId × Nat)},
    l.foldlM (fun buffer e => generate_path_loop g fuel [e] 0 buffer) buf
      = some buf' →
    (∀ n v, smGet buf n = some v → ∀ d ∈ depsOf g n,
      ∃ w, smGet buf d = some w ∧ v < w) →
    (∀ n v, smGet buf' n = some v → ∀ d ∈ depsOf g n,
      ∃ w, smGet buf' d = some w ∧ v < w) := by
  intro l
  induction l with
  | nil =>
    intro buf buf' h hQ
    simp only [List.foldlM_nil] at h
    exact (Option.some.inj h) ▸ hQ
  | cons e rest ih =>
    intro buf buf' h hQ
    simp only [List.foldlM_cons] at h
    cases hstep : generate_path_loop g fuel [e] 0 buf with
    | none => rw [hstep] at h; simp at h
    | some b1 =>
      rw [hstep] at h
      simp only [Option.bind_eq_bind, Option.some_bind] at h
      refine ih h ?_
      intro n v hv d hd
      rcases gploop_deps hstep n v hv with hcase | hcase
      · obtain ⟨w0, hw0, hlt⟩ := hQ n v hcase d hd
        obtain ⟨w, hw, hle⟩ := gploop_mono hstep d w0 hw0
        exact ⟨w, hw, lt_of_lt_of_le hlt hle⟩
      · exact hcase d hd

theorem gpfold_reach {T V : Type} {g : Graph T V} {fuel : Nat}
    (R : NodeId → Prop) (hclosed : ∀ n, R n → ∀ d ∈ depsOf g n, R d) :
    ∀ {l : List NodeId} {buf buf' : List (NodeId × Nat)},
    l.foldlM (fun buffer e => generate_path_loop g fuel [e] 0 buffer) buf
      = some buf' →
    (∀ e ∈ l, R e) → (∀ n v, smGet buf n = some v → R n) →
    ∀ n v, smGet buf' n = some v → R n := by
  intro l
  induction l with
  | nil =>
    intro buf buf' h _ hbuf
    simp only [List.foldlM_nil] at h
    exact (Option.some.inj h) ▸ hbuf
  | cons e rest ih =>
    intro buf buf' h hl hbuf
    simp only [List.foldlM_cons] at h
    cases hstep : generate_path_loop g fuel [e] 0 buf with
    | none => rw [hstep] at h; simp at h
    | some b1 =>
      rw [hstep] at h
      simp only [Option.bind_eq_bind, Option.some_bind] at h
      refine ih h (fun e' he' => hl e' (List.mem_cons_of_mem _ he')) ?_
      exact gploop_reach R hclosed hstep
        (fun m hm => by
          have : m = e := by simpa using hm
          exact this ▸ hl e (List.mem_cons_self _ _)) hbuf

theorem gpfold_depsSome {T V : Type} {g : Graph T V} {fuel : Nat} :
    ∀ {l : List NodeId} {buf buf' : List (NodeId × Nat)},
    l.foldlM (fun buffer e => generate_path_loop g fuel [e] 0 buffer) buf
      = some buf' →
    ∀ n, (smGet buf' n).isSome = true →
      (smGet buf n).isSome = true ∨
        (get_direct_dependencies g n).isSome = true := by
  intro l
  induction l with
  | nil =>
    intro buf buf' h n hv
    simp only [List.foldlM_nil] at h
    exact Or.inl ((Option.some.inj h) ▸ hv)
  | cons e rest ih =>
    intro buf buf' h n hv
    simp only [List.foldlM_cons] at h
    cases hstep : generate_path_loop g fuel [e] 0 buf with
    | none => rw [hstep] at h; simp at h
    | some b1 =>
      rw [hstep] at h
      simp only [Option.bind_eq_bind, Option.some_bind] at h
      rcases ih h n hv with hcase | hcase
      · exact gploop_depsSome hstep n hcase
      · exact Or.inr hcase

theorem gpfold_nodup {T V : Type} {g : Graph T V} {fuel : Nat} :
    ∀ {l : List NodeId} {buf buf' : List (NodeId × Nat)},
    l.foldlM (fun buffer e => generate_path_loop g fuel [e] 0 buffer) buf
      = some buf' →
    (smKeys buf).Nodup → (smKeys buf').Nodup := by
  intro l
  induction l with
  | nil =>
    intro buf buf' h hnd
    simp only [List.foldlM_nil] at h
    exact (Option.some.inj h) ▸ hnd
  | cons e rest ih =>
    intro buf buf' h hnd
    simp only [List.foldlM_cons] at h
    cases hstep : generate_path_loop g fuel [e] 0 buf with
    | none => rw [hstep] at h; simp at h
    | some b1 =>
      rw [hstep] at h
      simp only [Option.bind_eq_bind, Option.some_bind] at h
      exact ih h (gploop_nodup hstep hnd)

theorem prioInsert_perm (x : NodeId × Nat) :
    ∀ l : List (NodeId × Nat), (prioInsert x l).Perm (x :: l) := by
  intro l
  induction l with
  | nil => exact List.Perm.refl _
  | cons y rest ih =>
    by_cases h : x.2 ≤ y.2
    · simp only [prioInsert, if_pos h]
      exact List.Perm.refl _
    · simp only [prioInsert, if_neg h]
      exact (ih.cons y).trans (List.Perm.swap x y rest)

theorem mem_prioInsert {x z : NodeId × Nat} {l : List (NodeId × Nat)}
    (h : z ∈ prioInsert x l) : z = x ∨ z ∈ l := by
  have := (prioInsert_perm x l).mem_iff.mp h
  exact List.mem_cons.mp this

theorem prioInsert_sorted {x : NodeId × Nat} {l : List (NodeId × Nat)}
    (h : List.Pairwise (fun a b : NodeId × Nat => a.2 ≤ b.2) l) :
    List.Pairwise (fun a b : NodeId × Nat => a.2 ≤ b.2) (prioInsert x l) := by
  induction l with
  | nil => simp [prioInsert]
  | cons y rest ih =>
    rw [List.pairwise_cons] at h
    by_cases hc : x.2 ≤ y.2
    · simp only [prioInsert, if_pos hc]
      rw [List.pairwise_cons]
      constructor
      · intro z hz
        rcases List.mem_cons.mp hz with hz | hz
        · exact hz ▸ hc
        · exact le_trans hc (h.1 z hz)
      · exact List.pairwise_cons.mpr h
    · simp only [prioInsert, if_neg hc]
      rw [List.pairwise_cons]
      constructor
      · intro z hz
        rcases mem_prioInsert hz with hz | hz
        · exact hz ▸ le_of_not_le hc
        · exact h.1 z hz
      · exact ih h.2

theorem prioSort_perm : ∀ l : List (NodeId × Nat), (prioSort l).Perm l := by
  intro l
  induction l with
  | nil => exact List.Perm.refl _
  | cons x rest ih =>
    exact (prioInsert_perm x (prioSort rest)).trans (ih.cons x)

theorem prioSort_sorted : ∀ l : List (NodeId × Nat),
    List.Pairwise (fun a b : NodeId × Nat => a.2 ≤ b.2) (prioSort l) := by
  intro l
  induction l with
  | nil => simp [prioSort]
  | cons x rest ih => exact prioInsert_sorted ih

theorem pairwise_desc_index {l : List (NodeId × Nat)}
    (hp : List.Pairwise (fun x y : NodeId × Nat => y.2 ≤ x.2) l)
    {a b : NodeId} {pa pb : Nat}
    (ha : (a, pa) ∈ l) (hb : (b, pb) ∈ l) (hlt : pb < pa) :
    ∃ i j, i < j ∧ l.get? i = some (a, pa) ∧ l.get? j = some (b, pb) := by
  induction l with
  | nil => simp at ha
  | cons h0 t ih =>
    rw [List.pairwise_cons] at hp
    rcases List.mem_cons.mp ha with hac | hac
    · rcases List.mem_cons.mp hb with hbc | hbc
      · rw [← hac] at hbc
        have : pb = pa := congrArg Prod.snd hbc
        omega
      · obtain ⟨j, hj⟩ := List.mem_iff_get?.mp hbc
        exact ⟨0, j + 1, Nat.succ_pos j, by simp [hac.symm], by simpa using hj⟩
    · rcases List.mem_cons.mp hb with hbc | hbc
      · have h1 : pa ≤ h0.2 := hp.1 _ hac
        have h2 : h0.2 = pb := by rw [← hbc]
        omega
      · obtain ⟨i, j, hij, hi, hj⟩ := ih hp.2 hac hbc
        exact ⟨i + 1, j + 1, Nat.succ_lt_succ hij, by simpa using hi,
          by simpa using hj⟩

theorem mem_uniqueFirstAux : ∀ {l : List Nat} {seen : List Nat} {a : Nat},
    a ∈ l → a ∉ seen → a ∈ uniqueFirstAux seen l := by
  intro l
  induction l with
  | nil => intro seen a ha _; simp at ha
  | cons b rest ih =>
    intro seen a ha hseen
    by_cases hb : b ∈ seen
    · simp only [uniqueFirstAux, if_pos hb]
      rcases List.mem_cons.mp ha with h | h
      · exact absurd (h ▸ hb) hseen
      · exact ih h hseen
    · simp only [uniqueFirstAux, if_neg hb]
      rcases List.mem_cons.mp ha with h | h
      · exact h ▸ List.mem_cons_self _ _
      · by_cases hab : a = b
        · exact hab ▸ List.mem_cons_self _ _
        · refine List.mem_cons_of_mem _ (ih h ?_)
          simp only [List.mem_cons, not_or]
          exact ⟨hab, hseen⟩

theorem mem_uniqueFirst {l : List Nat} {a : Nat} (h : a ∈ l) :
    a ∈ uniqueFirst l :=
  mem_uniqueFirstAux h (by simp)

theorem mapM_mem {α β : Type} {f : α → Option β} :
    ∀ {l : List α} {l' : List β}, l.mapM f = some l' →
    ∀ x ∈ l, ∃ y, f x = some y ∧ y ∈ l' := by
  intro l
  induction l with
  | nil => intro l' _ x hx; simp at hx
  | cons a rest ih =>
    intro l' h x hx
    rw [List.mapM_cons] at h
    cases hfa : f a with
    | none => rw [hfa] at h; simp at h
    | some y =>
      rw [hfa] at h
      cases hrest : rest.mapM f with
      | none => rw [hrest] at h; simp at h
      | some ys =>
        rw [hrest] at h
        simp only [Option.bind_eq_bind, Option.some_bind, Option.pure_def] at h
        have hl' : y :: ys = l' := Option.some.inj h
        rcases List.mem_cons.mp hx with hcase | hcase
        · exact ⟨y, hcase ▸ hfa, hl' ▸ List.mem_cons_self _ _⟩
        · obtain ⟨y', hy', hmem⟩ := ih hrest x hcase
          exact ⟨y', hy', hl' ▸ List.mem_cons_of_mem _ hmem⟩

/-- Under the structural invariants, a stored connection makes the owner of
its output side a direct dependency of the owner of its input side. -/
theorem mem_depsOf_of_connection {T V : Type} {g : Graph T V} (hwf : WF g)
    {cid : ConnectionId} {c : Connection} {s e : Port T V}
    (hc : smGet g.connections cid = some c)
    (hs : smGet g.output_ports c.start_port = some s)
    (he : smGet g.input_ports c.end_port = some e)
    (hsome : (get_direct_dependencies g e.node).isSome = true) :
    s.node ∈ depsOf g e.node := by
  have hnd := (hwf.input_ports_ok _ (smGet_mem he)).2.2.1
  rw [optHolds_iff] at hnd
  obtain ⟨nd, hgetnd, hentry⟩ := hnd
  have hincoming : cid ∈ e.incoming_connections := by
    have h := hwf.conn_end _ (smGet_mem hc)
    rw [optHolds_iff] at h
    obtain ⟨e', he', hmem, _⟩ := h
    rw [he] at he'
    exact (Option.some.inj he') ▸ hmem
  unfold depsOf
  unfold get_direct_dependencies at hsome ⊢
  rw [hgetnd] at hsome ⊢
  simp only [Option.some_bind] at hsome ⊢
  obtain ⟨res, hres⟩ := Option.isSome_iff_exists.mp hsome
  obtain ⟨ll, hll, _⟩ := Option.map_eq_some'.mp hres
  rw [hll]
  simp only [Option.map_some', Option.getD_some]
  obtain ⟨li, hli, hlimem⟩ := mapM_mem hll _ hentry
  simp only at hli
  rw [he] at hli
  simp only [Option.some_bind] at hli
  obtain ⟨y, hy, hymem⟩ := mapM_mem hli cid hincoming
  rw [hc] at hy
  simp only [Option.some_bind] at hy
  rw [hs] at hy
  simp only [Option.map_some'] at hy
  have hyn : y = s.node := Option.some.inj hy.symm
  subst hyn
  exact mem_uniqueFirst (List.mem_flatten.mpr ⟨li, hlimem, hymem⟩)

/-- C1: whenever `generate_execution_path` returns a list (any fuel — the
loop can only drain its stack on graphs whose reachable part is acyclic),
that list contains every node reachable from the exit set exactly once, and
for every connection from an output port of node A to an input port of node
B with both nodes in the list, A appears strictly before B: every node
appears after all of its dependencies and before all of its dependents. -/
theorem generate_execution_path_topological {T V : Type} (g : Graph T V)
    (exit_nodes : List NodeId) (fuel : Nat) (path : List NodeId) (hwf : WF g)
    (hrun : generate_execution_path g exit_nodes fuel = some path) :
    (∀ n, n ∈ path ↔ ∃ e ∈ exit_nodes, Reaches g e n) ∧
    path.Nodup ∧
    (∀ b ∈ path, ∀ a ∈ depsOf g b, a ∈ path ∧
      ∃ i j, i < j ∧ path.get? i = some a ∧ path.get? j = some b) ∧
    (∀ (cid : ConnectionId) (c : Connection) (s e : Port T V),
      smGet g.connections cid = some c →
      smGet g.output_ports c.start_port = some s →
      smGet g.input_ports c.end_port = some e →
      s.node ∈ path → e.node ∈ path →
      ∃ i j, i < j ∧ path.get? i = some s.node ∧ path.get? j = some e.node) := by
  unfold generate_execution_path at hrun
  cases hfold : exit_nodes.foldlM
      (fun buffer e => generate_path_loop g fuel [e] 0 buffer) [] with
  | none => rw [hfold] at hrun; simp at hrun
  | some bufF =>
    rw [hfold] at hrun
    simp only [Option.map_some'] at hrun
    have hpath : path = ((prioSort bufF).reverse).map Prod.fst :=
      (Option.some.inj hrun).symm
    have hQ : ∀ n v, smGet bufF n = some v → ∀ d ∈ depsOf g n,
        ∃ w, smGet bufF d = some w ∧ v < w :=
      gpfold_Q hfold (fun n v hv => by simp [smGet] at hv)
    have hnodupKeys : (smKeys bufF).Nodup :=
      gpfold_nodup hfold (by simp [smKeys])
    have hexits : ∀ e ∈ exit_nodes, (smGet bufF e).isSome = true :=
      gpfold_exits hfold
    have hreach : ∀ n v, smGet bufF n = some v →
        ∃ e ∈ exit_nodes, Reaches g e n := by
      intro n v hv
      refine gpfold_reach (fun m => ∃ e ∈ exit_nodes, Reaches g e m) ?_ hfold
        ?_ (fun m w hw => by simp [smGet] at hw) n v hv
      · rintro m ⟨e, he, hR⟩ d hd
        exact ⟨e, he, hR.step hd⟩
      · intro e he
        exact ⟨e, he, Reaches.refl e⟩
    have hperm : ((prioSort bufF).reverse).Perm bufF :=
      (List.reverse_perm _).trans (prioSort_perm bufF)
    have hpathiff : ∀ n, n ∈ path ↔ (smGet bufF n).isSome = true := by
      intro n
      rw [hpath, smGet_isSome_iff]
      exact (hperm.map Prod.fst).mem_iff
    have hsorted : List.Pairwise (fun x y : NodeId × Nat => y.2 ≤ x.2)
        ((prioSort bufF).reverse) :=
      List.pairwise_reverse.mpr (prioSort_sorted bufF)
    have horder : ∀ (a : NodeId) (wa : Nat) (b : NodeId) (vb : Nat),
        smGet bufF a = some wa → smGet bufF b = some vb → vb < wa →
        ∃ i j, i < j ∧ path.get? i = some a ∧ path.get? j = some b := by
      intro a wa b vb ha hb hlt
      have haL : (a, wa) ∈ (prioSort bufF).reverse :=
        hperm.mem_iff.mpr (smGet_mem ha)
      have hbL : (b, vb) ∈ (prioSort bufF).reverse :=
        hperm.mem_iff.mpr (smGet_mem hb)
      obtain ⟨i, j, hij, hi, hj⟩ := pairwise_desc_index hsorted haL hbL hlt
      refine ⟨i, j, hij, ?_, ?_⟩
      · rw [hpath, List.get?_map, hi]
        rfl
      · rw [hpath, List.get?_map, hj]
        rfl
    have hreach_mem : ∀ m n, Reaches g m n → m ∈ exit_nodes →
        (smGet bufF n).isSome = true := by
      intro m n hR
      induction hR with
      | refl => intro hm; exact hexits _ hm
      | step hR hd ih =>
        intro hm
        obtain ⟨vb, hvb⟩ := Option.isSome_iff_exists.mp (ih hm)
        obtain ⟨w, hw, _⟩ := hQ _ _ hvb _ hd
        simp [hw]
    have hdepthm : ∀ b ∈ path, ∀ a ∈ depsOf g b, a ∈ path ∧
        ∃ i j, i < j ∧ path.get? i = some a ∧ path.get? j = some b := by
      intro b hb a ha
      obtain ⟨vb, hvb⟩ := Option.isSome_iff_exists.mp ((hpathiff b).mp hb)
      obtain ⟨wa, hwa, hlt⟩ := hQ _ _ hvb _ ha
      refine ⟨(hpathiff a).mpr (by simp [hwa]), ?_⟩
      exact horder a wa b vb hwa hvb hlt
    refine ⟨?_, ?_, hdepthm, ?_⟩
    · intro n
      constructor
      · intro hn
        obtain ⟨v, hv⟩ := Option.isSome_iff_exists.mp ((hpathiff n).mp hn)
        exact hreach n v hv
      · rintro ⟨e, he, hR⟩
        exact (hpathiff n).mpr (hreach_mem e n hR he)
    · rw [hpath]
      have : ((prioSort bufF).reverse.map Prod.fst).Perm (smKeys bufF) :=
        hperm.map Prod.fst
      exact this.nodup_iff.mpr hnodupKeys
    · intro cid c s e hc hs he _hsp hep
      have hsomeE : (smGet bufF e.node).isSome = true := (hpathiff e.node).mp hep
      have hdeps : (get_direct_dependencies g e.node).isSome = true := by
        rcases gpfold_depsSome hfold e.node hsomeE with hcase | hcase
        · simp [smGet] at hcase
        · exact hcase
      have hmem : s.node ∈ depsOf g e.node :=
        mem_depsOf_of_connection hwf hc hs he hdeps
      exact (hdepthm e.node hep s.node hmem).2

/-- Witness for C1: the chain graph with exit set `[2]` and fuel 10 yields
the path `[0, 1, 2]` — the producer before the doubler before the sink. -/
theorem generate_execution_path_topological_witness :
    (∀ n, n ∈ ([0, 1, 2] : List NodeId) ↔
      ∃ e ∈ ([2] : List NodeId), Reaches gChain e n) ∧
    ([0, 1, 2] : List NodeId).Nodup ∧
    (∀ b ∈ ([0, 1, 2] : List NodeId), ∀ a ∈ depsOf gChain b,
      a ∈ ([0, 1, 2] : List NodeId) ∧
      ∃ i j, i < j ∧ ([0, 1, 2] : List NodeId).get? i = some a ∧
        ([0, 1, 2] : List NodeId).get? j = some b) ∧
    (∀ (cid : ConnectionId) (c : Connection) (s e : Port Nat Nat),
      smGet gChain.connections cid = some c →
      smGet gChain.output_ports c.start_port = some s →
      smGet gChain.input_ports c.end_port = some e →
      s.node ∈ ([0, 1, 2] : List NodeId) → e.node ∈ ([0, 1, 2] : List NodeId) →
      ∃ i j, i < j ∧ ([0, 1, 2] : List NodeId).get? i = some s.node ∧
        ([0, 1, 2] : List NodeId).get? j = some e.node) :=
  generate_execution_path_topological gChain [2] 10 [0, 1, 2] gChain_wf
    (by decide)

end NodeGraph
